import Mathlib

/-!
Verification of the youtube-trend-collector core against its specification.

The development shallowly embeds the data-acquisition pipeline:
the NDJSON stream frame parser, the external search invoker's argument
construction and exit classification, the record mapper's defaulting,
the collection orchestrator, and the daily trend aggregator.
JavaScript strings are modelled as `List Char`; machine numbers as `Nat`
or `Int`; fallible operations as `Except`; the database as explicit
record state.
-/

namespace YTC

/-! ## Stream frame parser (hardened NDJSON collector inside searchYouTube) -/

/-- JavaScript `String.prototype.trim` whitespace test, restricted to the
ASCII whitespace characters that can occur in the tool's output. -/
def jsWhitespaceChar (c : Char) : Bool :=
  c = ' ' ∨ c = '\t' ∨ c = '\n' ∨ c = '\r' ∨ c = '\x0c' ∨ c = '\x0b'

/-- JavaScript `line.trim()`: strip whitespace from both ends. -/
def jsTrim (l : List Char) : List Char :=
  ((l.dropWhile jsWhitespaceChar).reverse.dropWhile jsWhitespaceChar).reverse

/-- Embeds `tryParseLine`: trim the line, skip it when empty, decode it and
append the record on success, silently skip it on decode failure.  The JSON
decoder (`JSON.parse` composed with `parseVideoInfo`) is abstracted as the
`decode` parameter; decode failure is its `none` result. -/
def tryParseLine (decode : List Char → Option α) (videos : List α) (line : List Char) :
    List α :=
  let trimmed := jsTrim line
  if trimmed.isEmpty then videos
  else
    match decode trimmed with
    | some v => videos ++ [v]
    | none => videos

/-- The parser state threaded through the `data` events: the retained
partial line and the records accumulated so far (`buffer` and `videos`
in the source). -/
structure NdjsonState (α : Type) where
  buffer : List Char
  videos : List α
deriving DecidableEq

/-- Embeds `buffer.indexOf('\n')` together with the two slices the loop
takes: the content before the first newline and the content after it. -/
def splitFirstNl : List Char → Option (List Char × List Char)
  | [] => none
  | c :: cs =>
    if c = '\n' then some ([], cs)
    else
      match splitFirstNl cs with
      | none => none
      | some (l, r) => some (c :: l, r)

/-- Embeds the CRLF fixup `if (line.endsWith('\r')) line = line.slice(0, -1)`. -/
def stripCR (line : List Char) : List Char :=
  if line.getLast? = some '\r' then line.dropLast else line

theorem splitFirstNl_rest_length :
    ∀ (b l r : List Char), splitFirstNl b = some (l, r) → r.length < b.length := by
  intro b
  induction b with
  | nil => intro l r h; simp [splitFirstNl] at h
  | cons c cs ih =>
    intro l r h
    simp only [splitFirstNl] at h
    by_cases hc : c = '\n'
    · simp [hc] at h
      obtain ⟨-, hr⟩ := h
      subst hr
      simp
    · simp only [if_neg hc] at h
      cases hsp : splitFirstNl cs with
      | none => rw [hsp] at h; simp at h
      | some p =>
        rw [hsp] at h
        obtain ⟨l0, r0⟩ := p
        simp at h
        obtain ⟨_, hr⟩ := h
        have := ih l0 r0 hsp
        subst hr
        simp
        omega

/-- Embeds the `while (true)` line-extraction loop of `consumeNdjson`:
repeatedly split off the content before the first newline, strip a
trailing carriage return, feed it to `tryParseLine`, and continue on the
content after the newline until no newline remains. -/
def extractLoop (decode : List Char → Option α) (videos : List α) (buffer : List Char) :
    List α × List Char :=
  match h : splitFirstNl buffer with
  | none => (videos, buffer)
  | some (line, rest) =>
    extractLoop decode (tryParseLine decode videos (stripCR line)) rest
termination_by buffer.length
decreasing_by exact splitFirstNl_rest_length buffer line rest h

/-- The safety bound of the collector, `5_000_000` characters in the source. -/
def MAX_BUFFER_CHARS : Nat := 5000000

/-- Embeds `consumeNdjson`: append the chunk to the buffer; if the buffer now
exceeds `MAX_BUFFER_CHARS`, discard it entirely and return; otherwise run
the line-extraction loop. -/
def consumeNdjson (decode : List Char → Option α) (st : NdjsonState α) (chunk : List Char) :
    NdjsonState α :=
  let buffer := st.buffer ++ chunk
  if buffer.length > MAX_BUFFER_CHARS then
    { buffer := [], videos := st.videos }
  else
    let p := extractLoop decode st.videos buffer
    { buffer := p.2, videos := p.1 }

/-- Embeds `buffer.split(/\r?\n/)`: split on each leftmost occurrence of an
optional carriage return followed by a newline. -/
def splitFlush : List Char → List (List Char)
  | [] => [[]]
  | c :: cs =>
    if c = '\r' ∧ cs.head? = some '\n' then [] :: splitFlush cs.tail
    else if c = '\n' then [] :: splitFlush cs
    else
      match splitFlush cs with
      | [] => [[c]]
      | l :: ls => (c :: l) :: ls
termination_by l => l.length
decreasing_by
· simp [List.length_tail]
  omega
· simp
· simp

/-- Embeds `flushNdjson`: when the buffer is nonempty, split it on `/\r?\n/`,
clear it, and feed every remaining segment through `tryParseLine`. -/
def flushNdjson (decode : List Char → Option α) (st : NdjsonState α) : NdjsonState α :=
  if st.buffer.isEmpty then st
  else
    let lines := splitFlush st.buffer
    { buffer := [], videos := lines.foldl (tryParseLine decode) st.videos }

/-- The collector's initial state: empty buffer, no records. -/
def initNdjson : NdjsonState α := { buffer := [], videos := [] }

/-- One full stream: every `data` chunk through `consumeNdjson` in arrival
order, then the `close`-time `flushNdjson`; the result is the record list. -/
def runNdjson (decode : List Char → Option α) (chunks : List (List Char)) : List α :=
  (flushNdjson decode (chunks.foldl (consumeNdjson decode) initNdjson)).videos

/-! ### One-pass reading of the extraction loop

`splitLinesNl` computes, in one structural pass, the complete lines
(content before each newline, in order) and the trailing remainder of a
character list.  `extractLoop_eq` below proves that the source's
`indexOf`-loop computes exactly this. -/

/-- The complete lines and the trailing newline-free remainder of a buffer. -/
def splitLinesNl : List Char → List (List Char) × List Char
  | [] => ([], [])
  | c :: cs =>
    let p := splitLinesNl cs
    if c = '\n' then ([] :: p.1, p.2)
    else
      match p.1 with
      | [] => ([], c :: p.2)
      | l :: ls => ((c :: l) :: ls, p.2)

theorem splitFirstNl_eq_none : ∀ (b : List Char), splitFirstNl b = none ↔ '\n' ∉ b := by
  intro b
  induction b with
  | nil => simp [splitFirstNl]
  | cons c cs ih =>
    simp only [splitFirstNl]
    by_cases hc : c = '\n'
    · simp [hc]
    · simp only [if_neg hc]
      cases hsp : splitFirstNl cs with
      | none =>
        simp only [hsp, List.mem_cons]
        constructor
        · intro _
          rintro (h | h)
          · exact hc h.symm
          · exact (ih.mp hsp) h
        · intro _
          trivial
      | some p =>
        obtain ⟨l, r⟩ := p
        have hmem : '\n' ∈ cs := by
          by_contra hh
          rw [ih.mpr hh] at hsp
          exact Option.noConfusion hsp
        simp [hsp, hmem]

theorem splitFirstNl_some :
    ∀ (b l r : List Char), splitFirstNl b = some (l, r) →
      b = l ++ '\n' :: r ∧ '\n' ∉ l := by
  intro b
  induction b with
  | nil => intro l r h; simp [splitFirstNl] at h
  | cons c cs ih =>
    intro l r h
    simp only [splitFirstNl] at h
    by_cases hc : c = '\n'
    · simp [hc] at h
      obtain ⟨hl, hr⟩ := h
      subst hl; subst hr; subst hc
      simp
    · simp only [if_neg hc] at h
      cases hsp : splitFirstNl cs with
      | none => rw [hsp] at h; simp at h
      | some p =>
        rw [hsp] at h
        obtain ⟨l0, r0⟩ := p
        simp at h
        obtain ⟨hl, hr⟩ := h
        obtain ⟨hcs, hnl⟩ := ih l0 r0 hsp
        subst hl; subst hr; subst hcs
        refine ⟨rfl, ?_⟩
        simp [List.mem_cons, hnl]
        exact fun hh => hc hh.symm

theorem splitLinesNl_no_nl : ∀ (b : List Char), '\n' ∉ b → splitLinesNl b = ([], b) := by
  intro b
  induction b with
  | nil => intro _; rfl
  | cons c cs ih =>
    intro h
    have hc : ¬(c = '\n') := fun hh => h (by simp [hh])
    have hcs : '\n' ∉ cs := fun hh => h (List.mem_cons_of_mem c hh)
    simp only [splitLinesNl, ih hcs, if_neg hc]

theorem splitLinesNl_rest_no_nl : ∀ (b : List Char), '\n' ∉ (splitLinesNl b).2 := by
  intro b
  induction b with
  | nil => simp [splitLinesNl]
  | cons c cs ih =>
    simp only [splitLinesNl]
    by_cases hc : c = '\n'
    · simpa [hc] using ih
    · simp only [if_neg hc]
      cases h1 : (splitLinesNl cs).1 with
      | nil =>
        simp only []
        intro hmem
        rcases List.mem_cons.mp hmem with h | h
        · exact hc h.symm
        · exact ih h
      | cons l ls => simpa using ih

theorem splitLinesNl_rest_length :
    ∀ (b : List Char), (splitLinesNl b).2.length ≤ b.length := by
  intro b
  induction b with
  | nil => simp [splitLinesNl]
  | cons c cs ih =>
    simp only [splitLinesNl]
    by_cases hc : c = '\n'
    · simp only [if_pos hc]
      simp
      omega
    · simp only [if_neg hc]
      cases h1 : (splitLinesNl cs).1 with
      | nil => simp; omega
      | cons l ls => simp; omega

theorem splitLinesNl_line :
    ∀ (l r : List Char), '\n' ∉ l →
      splitLinesNl (l ++ '\n' :: r) =
        (l :: (splitLinesNl r).1, (splitLinesNl r).2) := by
  intro l
  induction l with
  | nil => intro r _; simp [splitLinesNl]
  | cons c l ih =>
    intro r h
    have hc : ¬(c = '\n') := fun hh => h (by simp [hh])
    have hl : '\n' ∉ l := fun hh => h (List.mem_cons_of_mem c hh)
    simp [List.cons_append, splitLinesNl, List.append_eq, ih r hl, hc]

theorem splitLinesNl_append :
    ∀ (a b : List Char),
      splitLinesNl (a ++ b) =
        ((splitLinesNl a).1 ++ (splitLinesNl ((splitLinesNl a).2 ++ b)).1,
         (splitLinesNl ((splitLinesNl a).2 ++ b)).2) := by
  intro a
  induction a with
  | nil => intro b; simp [splitLinesNl]
  | cons c a ih =>
    intro b
    by_cases hc : c = '\n'
    · subst hc
      simp [splitLinesNl, List.append_eq, ih b]
    · cases h1 : (splitLinesNl a).1 with
      | nil =>
        simp only [List.cons_append, splitLinesNl, List.append_eq, ih b, h1,
          List.nil_append, if_neg hc]
      | cons l0 ls0 =>
        simp [splitLinesNl, List.append_eq, ih b, h1, hc]

/-- The source's `while`-loop over `buffer.indexOf('\n')` computes the
one-pass split: it emits exactly the complete lines (each through the CRLF
fixup and `tryParseLine`) and retains the newline-free remainder. -/
theorem extractLoop_eq (decode : List Char → Option α) :
    ∀ (b : List Char) (vs : List α),
      extractLoop decode vs b =
        ((splitLinesNl b).1.foldl (fun acc l => tryParseLine decode acc (stripCR l)) vs,
         (splitLinesNl b).2) := by
  have H : ∀ (n : Nat) (b : List Char), b.length ≤ n → ∀ (vs : List α),
      extractLoop decode vs b =
        ((splitLinesNl b).1.foldl (fun acc l => tryParseLine decode acc (stripCR l)) vs,
         (splitLinesNl b).2) := by
    intro n
    induction n with
    | zero =>
      intro b hb vs
      have hbnil : b = [] := List.length_eq_zero.mp (Nat.le_zero.mp hb)
      subst hbnil
      rw [extractLoop]
      split
      · simp [splitLinesNl]
      · rename_i line rest hsp
        simp [splitFirstNl] at hsp
    | succ n ih =>
      intro b hb vs
      rw [extractLoop]
      split
      · rename_i hsp
        have hnl : '\n' ∉ b := (splitFirstNl_eq_none b).mp hsp
        rw [splitLinesNl_no_nl b hnl]
        simp
      · rename_i line rest hsp
        obtain ⟨hb2, hline⟩ := splitFirstNl_some b line rest hsp
        have hrest : rest.length ≤ n := by
          have := splitFirstNl_rest_length b line rest hsp
          omega
        rw [ih rest hrest]
        rw [hb2, splitLinesNl_line line rest hline]
        simp
  intro b vs
  exact H b.length b (Nat.le_refl _) vs

/-- `consumeNdjson` when the safety bound does not fire, as one pass:
emit the complete lines, keep the newline-free remainder. -/
def pureConsume (decode : List Char → Option α) (st : NdjsonState α) (chunk : List Char) :
    NdjsonState α :=
  let b := st.buffer ++ chunk
  { buffer := (splitLinesNl b).2,
    videos := (splitLinesNl b).1.foldl
      (fun acc l => tryParseLine decode acc (stripCR l)) st.videos }

theorem consumeNdjson_def (decode : List Char → Option α) (st : NdjsonState α)
    (chunk : List Char) :
    consumeNdjson decode st chunk =
      if (st.buffer ++ chunk).length > MAX_BUFFER_CHARS then
        { buffer := [], videos := st.videos }
      else
        { buffer := (extractLoop decode st.videos (st.buffer ++ chunk)).2,
          videos := (extractLoop decode st.videos (st.buffer ++ chunk)).1 } := rfl

theorem pureConsume_def (decode : List Char → Option α) (st : NdjsonState α)
    (chunk : List Char) :
    pureConsume decode st chunk =
      { buffer := (splitLinesNl (st.buffer ++ chunk)).2,
        videos := (splitLinesNl (st.buffer ++ chunk)).1.foldl
          (fun acc l => tryParseLine decode acc (stripCR l)) st.videos } := rfl

theorem consumeNdjson_eq_pure (decode : List Char → Option α) (st : NdjsonState α)
    (chunk : List Char) (h : (st.buffer ++ chunk).length ≤ MAX_BUFFER_CHARS) :
    consumeNdjson decode st chunk = pureConsume decode st chunk := by
  have hnot : ¬(st.buffer ++ chunk).length > MAX_BUFFER_CHARS := Nat.not_lt.mpr h
  rw [consumeNdjson_def, pureConsume_def, if_neg hnot, extractLoop_eq]

theorem pureConsume_buffer_no_nl (decode : List Char → Option α) (st : NdjsonState α)
    (chunk : List Char) : '\n' ∉ (pureConsume decode st chunk).buffer :=
  splitLinesNl_rest_no_nl _

theorem pureConsume_buffer_length (decode : List Char → Option α) (st : NdjsonState α)
    (chunk : List Char) :
    (pureConsume decode st chunk).buffer.length ≤ (st.buffer ++ chunk).length :=
  splitLinesNl_rest_length _

theorem pureConsume_append (decode : List Char → Option α) (st : NdjsonState α)
    (a b : List Char) :
    pureConsume decode (pureConsume decode st a) b = pureConsume decode st (a ++ b) := by
  rw [pureConsume_def, pureConsume_def, pureConsume_def]
  simp only [← List.append_assoc]
  rw [splitLinesNl_append (st.buffer ++ a) b]
  simp [List.foldl_append]

theorem foldl_consume_eq_pure (decode : List Char → Option α) :
    ∀ (chunks : List (List Char)) (st : NdjsonState α),
      '\n' ∉ st.buffer →
      st.buffer.length + chunks.flatten.length ≤ MAX_BUFFER_CHARS →
      chunks.foldl (consumeNdjson decode) st = pureConsume decode st chunks.flatten := by
  intro chunks
  induction chunks with
  | nil =>
    intro st h1 h2
    simp [pureConsume, splitLinesNl_no_nl _ h1]
  | cons c cs ih =>
    intro st h1 h2
    have hj : (c :: cs).flatten = c ++ cs.flatten := rfl
    rw [hj] at h2
    have hlen : (st.buffer ++ c).length ≤ MAX_BUFFER_CHARS := by
      simp only [List.length_append] at h2 ⊢
      omega
    rw [List.foldl_cons, consumeNdjson_eq_pure decode st c hlen]
    have hb2 : '\n' ∉ (pureConsume decode st c).buffer :=
      pureConsume_buffer_no_nl decode st c
    have hlen2 : (pureConsume decode st c).buffer.length + cs.flatten.length ≤
        MAX_BUFFER_CHARS := by
      have := pureConsume_buffer_length decode st c
      simp only [List.length_append] at h2 this
      omega
    rw [ih _ hb2 hlen2, pureConsume_append, hj]

/-- C2 (amended): chunk-size invariance of the stream frame parser holds for
every payload whose total length stays within the safety bound
`MAX_BUFFER_CHARS` (so the documented discard policy never fires): any
chunking of the payload, fed through `consumeNdjson` and flushed, yields
exactly the record sequence of feeding the payload as one chunk. -/
theorem ndjson_chunk_invariance (decode : List Char → Option α)
    (payload : List Char) (chunks : List (List Char))
    (hjoin : chunks.flatten = payload) (hlen : payload.length ≤ MAX_BUFFER_CHARS) :
    runNdjson decode chunks = runNdjson decode [payload] := by
  unfold runNdjson
  have h1 : chunks.foldl (consumeNdjson decode) initNdjson =
      pureConsume decode initNdjson chunks.flatten := by
    apply foldl_consume_eq_pure
    · simp [initNdjson]
    · simp [initNdjson, hjoin, hlen]
  have h2 : [payload].foldl (consumeNdjson decode) initNdjson =
      pureConsume decode initNdjson payload := by
    have := foldl_consume_eq_pure decode [payload] initNdjson
      (by simp [initNdjson]) (by simp [initNdjson, hlen])
    simpa using this
  rw [h1, h2, hjoin]

/-! ### Counterexample payload: an in-bounds chunking versus one oversized chunk -/

/-- One tiny record line. -/
def lineAN : List Char := ['a', '\n']

/-- 2500001 copies of the record line: 5000002 characters in all, two more
than `MAX_BUFFER_CHARS`. -/
def bigChunks : List (List Char) := List.replicate 2500001 lineAN

/-- A decoder accepting every trimmed line, so the payload is a valid
multi-line payload. -/
def idDecode : List Char → Option (List Char) := fun l => some l

theorem consume_lineAN (vs : List (List Char)) :
    consumeNdjson idDecode { buffer := [], videos := vs } lineAN =
      { buffer := [], videos := vs ++ [['a']] } := by
  have hle : (({ buffer := [], videos := vs } :
      NdjsonState (List Char)).buffer ++ lineAN).length ≤ MAX_BUFFER_CHARS := by
    dsimp only
    decide
  rw [consumeNdjson_eq_pure idDecode { buffer := [], videos := vs } lineAN hle,
    pureConsume_def]
  dsimp only
  rw [show splitLinesNl ([] ++ lineAN) = ([['a']], []) from by decide]
  have h2 : stripCR ['a'] = ['a'] := by decide
  have h3 : jsTrim ['a'] = ['a'] := by decide
  simp [tryParseLine, h2, h3, idDecode]

theorem foldl_consume_replicate (n : Nat) :
    ∀ (vs : List (List Char)),
      (List.replicate n lineAN).foldl (consumeNdjson idDecode)
          { buffer := [], videos := vs } =
        { buffer := [], videos := vs ++ List.replicate n ['a'] } := by
  induction n with
  | zero => intro vs; simp
  | succ n ih =>
    intro vs
    rw [List.replicate_succ, List.foldl_cons, consume_lineAN, ih]
    simp [List.replicate_succ]

theorem flatten_replicate_lineAN_length (n : Nat) :
    (List.replicate n lineAN).flatten.length = 2 * n := by
  induction n with
  | zero => simp
  | succ n ih =>
    rw [List.replicate_succ]
    have hj : (lineAN :: List.replicate n lineAN).flatten =
        lineAN ++ (List.replicate n lineAN).flatten := rfl
    rw [hj]
    simp [lineAN] at ih ⊢
    omega

/-- C2 counterexample: the 5000002-character payload of 2500001 `"a"` lines,
fed in its per-line chunking, yields 2500001 records, while fed as a single
chunk it trips the safety bound and yields none — so chunk-size invariance
fails on the code for this valid multi-line payload. -/
theorem flushNdjson_empty_buffer (decode : List Char → Option α) (v : List α) :
    flushNdjson decode { buffer := [], videos := v } = { buffer := [], videos := v } := rfl

theorem runNdjson_def (decode : List Char → Option α) (chunks : List (List Char)) :
    runNdjson decode chunks =
      (flushNdjson decode (chunks.foldl (consumeNdjson decode) initNdjson)).videos := rfl

/-- C2 counterexample: the 5000002-character payload of 2500001 `"a"` lines,
fed in its per-line chunking, yields 2500001 records, while fed as a single
chunk it trips the safety bound and yields none — so chunk-size invariance
fails on the code for this valid multi-line payload. -/
theorem runNdjson_oversized_empty :
    runNdjson idDecode [bigChunks.flatten] = [] := by
  have hlen : bigChunks.flatten.length = 5000002 := by
    unfold bigChunks
    rw [flatten_replicate_lineAN_length]
  have hgt : ((initNdjson : NdjsonState (List Char)).buffer ++
      bigChunks.flatten).length > MAX_BUFFER_CHARS := by
    rw [show (initNdjson : NdjsonState (List Char)).buffer = [] from rfl,
      List.nil_append, hlen]
    decide
  have hcons : consumeNdjson idDecode initNdjson bigChunks.flatten =
      { buffer := [], videos := ([] : List (List Char)) } := by
    rw [consumeNdjson_def, if_pos hgt]
    rfl
  rw [runNdjson_def, List.foldl_cons, List.foldl_nil, hcons, flushNdjson_empty_buffer]

theorem ndjson_chunk_invariance_cex :
    runNdjson idDecode bigChunks ≠ runNdjson idDecode [bigChunks.flatten] := by
  have hfold : bigChunks.foldl (consumeNdjson idDecode) initNdjson =
      { buffer := [], videos := List.replicate 2500001 ['a'] } := by
    have h := foldl_consume_replicate 2500001 []
    rw [List.nil_append] at h
    exact h
  have h1 : runNdjson idDecode bigChunks = List.replicate 2500001 ['a'] := by
    rw [runNdjson_def, hfold, flushNdjson_empty_buffer]
  rw [h1, runNdjson_oversized_empty]
  intro h
  have hL := congrArg List.length h
  rw [List.length_replicate, List.length_nil] at hL
  exact absurd hL (by decide)

/-- C3 (amended): the buffer-discard safety bound fires exactly when the
buffer, after appending the incoming chunk, exceeds `MAX_BUFFER_CHARS` —
regardless of whether the buffered content contains a line delimiter.  When
the bound does not fire, every complete line in the buffer is emitted
through `tryParseLine` and only a delimiter-free remainder is retained. -/
theorem consumeNdjson_discard_iff (decode : List Char → Option α)
    (st : NdjsonState α) (chunk : List Char) :
    (consumeNdjson decode st chunk =
      if (st.buffer ++ chunk).length > MAX_BUFFER_CHARS then
        { buffer := [], videos := st.videos }
      else
        { buffer := (splitLinesNl (st.buffer ++ chunk)).2,
          videos := (splitLinesNl (st.buffer ++ chunk)).1.foldl
            (fun acc l => tryParseLine decode acc (stripCR l)) st.videos }) ∧
    '\n' ∉ (consumeNdjson decode st chunk).buffer := by
  constructor
  · by_cases h : (st.buffer ++ chunk).length > MAX_BUFFER_CHARS
    · rw [if_pos h, consumeNdjson_def, if_pos h]
    · rw [if_neg h, consumeNdjson_eq_pure decode st chunk (Nat.not_lt.mp h)]
      rfl
  · by_cases h : (st.buffer ++ chunk).length > MAX_BUFFER_CHARS
    · rw [consumeNdjson_def, if_pos h]
      simp
    · rw [consumeNdjson_eq_pure decode st chunk (Nat.not_lt.mp h)]
      exact pureConsume_buffer_no_nl decode st chunk

/-- C3 counterexample: a single oversized chunk that does contain line
delimiters (2500001 complete `"a"` lines) is nevertheless discarded whole by
the safety bound: the buffer is reset and none of its complete lines is ever
emitted. -/
theorem ndjson_discard_with_delimiter_cex :
    '\n' ∈ bigChunks.flatten ∧
    consumeNdjson idDecode initNdjson bigChunks.flatten =
      { buffer := [], videos := [] } := by
  constructor
  · have hmem : lineAN ∈ bigChunks := by
      unfold bigChunks
      exact List.mem_replicate.mpr ⟨by omega, rfl⟩
    exact List.mem_flatten.mpr ⟨lineAN, hmem, by simp [lineAN]⟩
  · have hlen : bigChunks.flatten.length = 5000002 := by
      unfold bigChunks
      rw [flatten_replicate_lineAN_length]
    have hgt : ((initNdjson : NdjsonState (List Char)).buffer ++
        bigChunks.flatten).length > MAX_BUFFER_CHARS := by
      rw [show (initNdjson : NdjsonState (List Char)).buffer = [] from rfl,
        List.nil_append, hlen]
      decide
    rw [consumeNdjson_def, if_pos hgt]
    rfl

/-! ### Trailing-delimiter independence -/

/-- A payload of the given lines without a trailing delimiter. -/
def joinNl : List (List Char) → List Char
  | [] => []
  | [l] => l
  | l :: ls => l ++ '\n' :: joinNl ls

/-- A payload of the given lines, each terminated by a newline. -/
def joinNlT (lines : List (List Char)) : List Char :=
  (lines.map (fun l => l ++ ['\n'])).flatten

theorem joinNlT_cons (l : List Char) (ls : List (List Char)) :
    joinNlT (l :: ls) = l ++ '\n' :: joinNlT ls := by
  unfold joinNlT
  simp

theorem joinNl_length_le (lines : List (List Char)) :
    (joinNl lines).length ≤ (joinNlT lines).length := by
  induction lines with
  | nil => simp [joinNl, joinNlT]
  | cons l ls ih =>
    rw [joinNlT_cons]
    cases ls with
    | nil => simp [joinNl, joinNlT]
    | cons l2 ls2 =>
      rw [show joinNl (l :: l2 :: ls2) = l ++ '\n' :: joinNl (l2 :: ls2) from rfl]
      simp only [List.length_append, List.length_cons]
      omega

theorem splitLinesNl_joinNlT (lines : List (List Char))
    (hnl : ∀ l ∈ lines, '\n' ∉ l) :
    splitLinesNl (joinNlT lines) = (lines, []) := by
  induction lines with
  | nil => rfl
  | cons l ls ih =>
    rw [joinNlT_cons, splitLinesNl_line l _ (hnl l (by simp)),
      ih (fun x hx => hnl x (by simp [hx]))]

theorem splitLinesNl_joinNl (ls : List (List Char)) :
    ∀ (l : List Char), '\n' ∉ l → (∀ x ∈ ls, '\n' ∉ x) →
      splitLinesNl (joinNl (l :: ls)) =
        ((l :: ls).dropLast, ((l :: ls).getLast?).getD []) := by
  induction ls with
  | nil =>
    intro l hl _
    rw [show joinNl [l] = l from rfl, splitLinesNl_no_nl l hl]
    rfl
  | cons l2 ls2 ih =>
    intro l hl hls
    rw [show joinNl (l :: l2 :: ls2) = l ++ '\n' :: joinNl (l2 :: ls2) from rfl,
      splitLinesNl_line l _ hl,
      ih l2 (hls l2 (by simp)) (fun x hx => hls x (by simp [hx]))]
    rw [List.dropLast_cons₂, List.getLast?_cons_cons]

theorem stripCR_no_cr (l : List Char) (h : '\r' ∉ l) : stripCR l = l := by
  unfold stripCR
  split
  · rename_i hlast
    exact absurd (List.mem_of_mem_getLast? hlast) h
  · rfl

theorem foldl_stripCR_eq (decode : List Char → Option α) :
    ∀ (lines : List (List Char)) (vs : List α), (∀ l ∈ lines, '\r' ∉ l) →
      lines.foldl (fun acc l => tryParseLine decode acc (stripCR l)) vs =
        lines.foldl (tryParseLine decode) vs := by
  intro lines
  induction lines with
  | nil => intro vs _; rfl
  | cons l ls ih =>
    intro vs h
    rw [List.foldl_cons, List.foldl_cons, stripCR_no_cr l (h l (by simp)),
      ih _ (fun x hx => h x (by simp [hx]))]

theorem tryParseLine_some (decode : List Char → Option α) (vs : List α) (l : List Char)
    (hne : ¬(jsTrim l).isEmpty) (hs : (decode (jsTrim l)).isSome) :
    ∃ v, decode (jsTrim l) = some v ∧ tryParseLine decode vs l = vs ++ [v] := by
  obtain ⟨v, hv⟩ := Option.isSome_iff_exists.mp hs
  refine ⟨v, hv, ?_⟩
  unfold tryParseLine
  rw [if_neg hne, hv]

theorem foldl_tryParseLine_length (decode : List Char → Option α) :
    ∀ (lines : List (List Char)) (vs : List α),
      (∀ l ∈ lines, ¬(jsTrim l).isEmpty ∧ (decode (jsTrim l)).isSome) →
      (lines.foldl (tryParseLine decode) vs).length = vs.length + lines.length := by
  intro lines
  induction lines with
  | nil => intro vs _; simp
  | cons l ls ih =>
    intro vs h
    obtain ⟨v, -, hv2⟩ :=
      tryParseLine_some decode vs l (h l (by simp)).1 (h l (by simp)).2
    rw [List.foldl_cons, hv2, ih _ (fun x hx => h x (by simp [hx]))]
    simp
    omega

theorem splitFlush_no_delim (l : List Char) (hn : '\n' ∉ l) (hr : '\r' ∉ l) :
    splitFlush l = [l] := by
  induction l with
  | nil => rw [splitFlush]
  | cons c cs ih =>
    have hc1 : ¬(c = '\r' ∧ cs.head? = some '\n') := by
      intro hh
      exact hr (by simp [hh.1])
    have hc2 : ¬(c = '\n') := fun hh => hn (by simp [hh])
    rw [splitFlush]
    rw [if_neg hc1, if_neg hc2,
      ih (fun hx => hn (by simp [hx])) (fun hx => hr (by simp [hx]))]

theorem splitFlush_line (r : List Char) :
    ∀ (l : List Char), '\n' ∉ l → '\r' ∉ l →
      splitFlush (l ++ '\n' :: r) = l :: splitFlush r := by
  intro l
  induction l with
  | nil =>
    intro _ _
    rw [List.nil_append, splitFlush]
    rw [if_neg (by simp), if_pos rfl]
  | cons c cs ih =>
    intro hn hr
    have hc1 : ¬(c = '\r' ∧ (cs ++ '\n' :: r).head? = some '\n') := by
      intro hh
      exact hr (by simp [hh.1])
    have hc2 : ¬(c = '\n') := fun hh => hn (by simp [hh])
    rw [List.cons_append, splitFlush]
    rw [if_neg hc1, if_neg hc2,
      ih (fun hx => hn (by simp [hx])) (fun hx => hr (by simp [hx]))]

theorem splitFlush_joinNl (ls : List (List Char)) :
    ∀ (l : List Char), '\n' ∉ l → '\r' ∉ l →
      (∀ x ∈ ls, '\n' ∉ x ∧ '\r' ∉ x) →
      splitFlush (joinNl (l :: ls)) = l :: ls := by
  induction ls with
  | nil =>
    intro l hn hr _
    rw [show joinNl [l] = l from rfl, splitFlush_no_delim l hn hr]
  | cons l2 ls2 ih =>
    intro l hn hr hls
    rw [show joinNl (l :: l2 :: ls2) = l ++ '\n' :: joinNl (l2 :: ls2) from rfl,
      splitFlush_line _ l hn hr,
      ih l2 (hls l2 (by simp)).1 (hls l2 (by simp)).2
        (fun x hx => hls x (by simp [hx]))]

theorem flushNdjson_joinNl (decode : List Char → Option α) (lines : List (List Char))
    (hnl : ∀ l ∈ lines, '\n' ∉ l ∧ '\r' ∉ l) :
    ∀ (vs : List α),
      (flushNdjson decode { buffer := joinNl lines, videos := vs }).videos =
        lines.foldl (tryParseLine decode) vs := by
  intro vs
  cases lines with
  | nil => rfl
  | cons l ls =>
    by_cases hempty : (joinNl (l :: ls)).isEmpty
    · -- an empty buffer is possible only when every line is empty, and empty
      -- lines are skipped by tryParseLine in the fold as well
      have hjoin : joinNl (l :: ls) = [] := by
        cases hj : joinNl (l :: ls) with
        | nil => rfl
        | cons x xs => rw [hj] at hempty; simp at hempty
      have hl : l = [] ∧ ls = [] ∨ l = [] ∧ ls = [[]] := by
        cases ls with
        | nil => exact Or.inl ⟨hjoin, rfl⟩
        | cons l2 ls2 =>
          rw [show joinNl (l :: l2 :: ls2) = l ++ '\n' :: joinNl (l2 :: ls2) from rfl]
            at hjoin
          exact absurd hjoin (by simp)
      unfold flushNdjson
      rw [if_pos hempty]
      rcases hl with ⟨h1, h2⟩ | ⟨h1, h2⟩
      · subst h1; subst h2
        simp [tryParseLine, jsTrim]
      · subst h1; subst h2
        simp [tryParseLine, jsTrim]
    · unfold flushNdjson
      rw [if_neg hempty]
      simp only []
      rw [splitFlush_joinNl ls l (hnl l (by simp)).1 (hnl l (by simp)).2
        (fun x hx => hnl x (by simp [hx]))]

/-- C5 (amended): trailing-delimiter independence and flush behaviour, for
every payload of complete decodable lines whose newline-terminated form
stays within the `MAX_BUFFER_CHARS` safety bound (so the documented discard
policy never fires).  Such a payload yields the same records with or without
a final newline once flushed; the terminated payload yields exactly one
record per line; and flushing a buffer holding several delimiter-separated
lines feeds every one of them, in order, through `tryParseLine`. -/
theorem ndjson_trailing_delimiter_independence (decode : List Char → Option α)
    (lines : List (List Char))
    (hnl : ∀ l ∈ lines, '\n' ∉ l ∧ '\r' ∉ l)
    (hdec : ∀ l ∈ lines, ¬(jsTrim l).isEmpty ∧ (decode (jsTrim l)).isSome)
    (hlen : (joinNlT lines).length ≤ MAX_BUFFER_CHARS) :
    runNdjson decode [joinNl lines] = runNdjson decode [joinNlT lines] ∧
    (runNdjson decode [joinNlT lines]).length = lines.length ∧
    ∀ (vs : List α),
      (flushNdjson decode { buffer := joinNl lines, videos := vs }).videos =
        lines.foldl (tryParseLine decode) vs := by
  have hnlOnly : ∀ l ∈ lines, '\n' ∉ l := fun l hl => (hnl l hl).1
  have hcrOnly : ∀ l ∈ lines, '\r' ∉ l := fun l hl => (hnl l hl).2
  have hT : runNdjson decode [joinNlT lines] =
      lines.foldl (tryParseLine decode) [] := by
    rw [runNdjson_def, List.foldl_cons, List.foldl_nil,
      consumeNdjson_eq_pure decode initNdjson (joinNlT lines)
        (by rw [show (initNdjson : NdjsonState α).buffer = [] from rfl,
              List.nil_append]
            exact hlen),
      pureConsume_def]
    rw [show (initNdjson : NdjsonState α).buffer = [] from rfl, List.nil_append,
      splitLinesNl_joinNlT lines hnlOnly]
    rw [show (initNdjson : NdjsonState α).videos = [] from rfl]
    simp only []
    rw [foldl_stripCR_eq decode lines [] hcrOnly, flushNdjson_empty_buffer]
  have hN : runNdjson decode [joinNl lines] =
      lines.foldl (tryParseLine decode) [] := by
    cases lines with
    | nil =>
      rw [show joinNl ([] : List (List Char)) = joinNlT [] from rfl]
      exact hT
    | cons l ls =>
      rw [runNdjson_def, List.foldl_cons, List.foldl_nil,
        consumeNdjson_eq_pure decode initNdjson (joinNl (l :: ls))
          (by rw [show (initNdjson : NdjsonState α).buffer = [] from rfl,
                List.nil_append]
              exact le_trans (joinNl_length_le (l :: ls)) hlen),
        pureConsume_def]
      rw [show (initNdjson : NdjsonState α).buffer = [] from rfl, List.nil_append,
        splitLinesNl_joinNl ls l (hnlOnly l (by simp))
          (fun x hx => hnlOnly x (by simp [hx]))]
      rw [show (initNdjson : NdjsonState α).videos = [] from rfl]
      simp only []
      rw [foldl_stripCR_eq decode _ [] (fun x hx =>
        hcrOnly x (List.dropLast_subset _ hx))]
      have hlast : ∃ a, (l :: ls).getLast? = some a := by
        cases hg : (l :: ls).getLast? with
        | none => exact absurd hg (by simp [List.getLast?_isSome])
        | some a => exact ⟨a, rfl⟩
      obtain ⟨last, hlast⟩ := hlast
      rw [hlast]
      have hmem : last ∈ l :: ls := List.mem_of_mem_getLast? hlast
      have hfl := flushNdjson_joinNl decode [last]
        (by intro x hx
            have hx2 : x = last := by simpa using hx
            rw [hx2]
            exact hnl last hmem)
        ((l :: ls).dropLast.foldl (tryParseLine decode) [])
      rw [show joinNl [last] = last from rfl] at hfl
      rw [show (Option.some last).getD [] = last from rfl]
      rw [hfl]
      rw [List.foldl_cons, List.foldl_nil]
      rw [show tryParseLine decode
          (List.foldl (tryParseLine decode) [] (l :: ls).dropLast) last =
          List.foldl (tryParseLine decode)
            (List.foldl (tryParseLine decode) [] (l :: ls).dropLast) [last] from rfl]
      rw [← List.foldl_append, List.dropLast_append_getLast? last hlast]
  refine ⟨by rw [hT, hN], ?_, flushNdjson_joinNl decode lines hnl⟩
  rw [hT, foldl_tryParseLine_length decode lines [] hdec]
  simp

/-- Witness for C5 at the two-line payload `"a\nb"` / `"a\nb\n"` with the
accept-all decoder. -/
theorem ndjson_trailing_delimiter_independence_witness :
    (∀ l ∈ [['a'], ['b']], '\n' ∉ l ∧ '\r' ∉ l) ∧
    (∀ l ∈ [['a'], ['b']], ¬(jsTrim l).isEmpty ∧ (idDecode (jsTrim l)).isSome) ∧
    (joinNlT [['a'], ['b']]).length ≤ MAX_BUFFER_CHARS ∧
    (runNdjson idDecode [joinNl [['a'], ['b']]] =
        runNdjson idDecode [joinNlT [['a'], ['b']]] ∧
      (runNdjson idDecode [joinNlT [['a'], ['b']]]).length = 2 ∧
      ∀ (vs : List (List Char)),
        (flushNdjson idDecode { buffer := joinNl [['a'], ['b']], videos := vs }).videos =
          [['a'], ['b']].foldl (tryParseLine idDecode) vs) :=
  ⟨by decide, by decide, by decide,
    ndjson_trailing_delimiter_independence idDecode [['a'], ['b']]
      (by decide) (by decide) (by decide)⟩

/-- C5 counterexample: a payload of 2500001 complete decodable lines (each
the single character `a`, decodable, free of delimiters) whose terminated
form is 5000002 characters.  Fed as the stream's payload and flushed, it
yields zero records instead of exactly 2500001 — the safety bound discards
the whole oversized buffer before any line is extracted, so
trailing-delimiter independence with exactly N records fails on the code for
unbounded payloads. -/
theorem ndjson_trailing_delimiter_cex :
    ('\n' ∉ (['a'] : List Char) ∧ '\r' ∉ (['a'] : List Char) ∧
      ¬(jsTrim ['a']).isEmpty ∧ (idDecode (jsTrim ['a'])).isSome) ∧
    (List.replicate 2500001 (['a'] : List Char)).length = 2500001 ∧
    runNdjson idDecode [joinNlT (List.replicate 2500001 ['a'])] = [] := by
  refine ⟨by decide, List.length_replicate 2500001 (['a'] : List Char), ?_⟩
  have hmap : joinNlT (List.replicate 2500001 (['a'] : List Char)) =
      bigChunks.flatten := by
    unfold joinNlT bigChunks
    rw [List.map_replicate, show (['a'] : List Char) ++ ['\n'] = lineAN from rfl]
  rw [hmap]
  exact runNdjson_oversized_empty


/-- Witness for the amended C2 theorem at the payload `"a\nb"` split into the
chunks `"a"` and `"\nb"`. -/
theorem ndjson_chunk_invariance_witness :
    ([['a'], ['\n', 'b']] : List (List Char)).flatten = ['a', '\n', 'b'] ∧
    (['a', '\n', 'b'] : List Char).length ≤ MAX_BUFFER_CHARS ∧
    runNdjson idDecode [['a'], ['\n', 'b']] = runNdjson idDecode [['a', '\n', 'b']] :=
  ⟨by decide, by decide,
    ndjson_chunk_invariance idDecode ['a', '\n', 'b'] [['a'], ['\n', 'b']]
      (by decide) (by decide)⟩

/-! ## External search invoker: exit-outcome classification

The `close` handler of `searchYouTube`: flush the parser, then resolve with
the parsed records unless the exit code is nonzero and no record was parsed,
in which case reject with an execution-failure error carrying the code. -/

/-- The invoker's error taxonomy: execution failure carrying the exit code
(`yt-dlp exited with code N`), or the distinguished missing-binary error. -/
inductive YtError
  | toolExecutionFailed (code : Int)
  | toolNotInstalled
deriving DecidableEq

/-- Embeds the `close` handler of `searchYouTube`: `flushNdjson()` followed by
`if (code !== 0 && videos.length === 0) reject(...) else resolve(videos)`. -/
def handleClose (decode : List Char → Option α) (st : NdjsonState α) (code : Int) :
    Except YtError (List α) :=
  let st2 := flushNdjson decode st
  if code ≠ 0 ∧ st2.videos.length = 0 then
    .error (.toolExecutionFailed code)
  else
    .ok st2.videos

/-- C4: exit-outcome classification.  A zero exit code resolves with whatever
records were parsed (possibly none); a nonzero exit code with at least one
parsed record still resolves with exactly those records; a nonzero exit code
with no parsed record rejects with `toolExecutionFailed` carrying the exit
code — never an empty success. -/
theorem handleClose_classification (decode : List Char → Option α)
    (st : NdjsonState α) (code : Int) :
    (code = 0 →
      handleClose decode st code = .ok (flushNdjson decode st).videos) ∧
    (code ≠ 0 → (flushNdjson decode st).videos ≠ [] →
      handleClose decode st code = .ok (flushNdjson decode st).videos) ∧
    (code ≠ 0 → (flushNdjson decode st).videos = [] →
      handleClose decode st code = .error (.toolExecutionFailed code)) := by
  refine ⟨?_, ?_, ?_⟩
  · intro h0
    unfold handleClose
    rw [if_neg]
    intro hh
    exact hh.1 h0
  · intro hne hvs
    unfold handleClose
    rw [if_neg]
    intro hh
    exact hvs (List.length_eq_zero.mp hh.2)
  · intro hne hvs
    unfold handleClose
    rw [if_pos ⟨hne, by rw [hvs]; rfl⟩]

/-- Witness for C4: all three outcome classes at concrete states — exit 0
with no records, exit 5 with one record, exit 5 with no records. -/
theorem handleClose_classification_witness :
    handleClose idDecode { buffer := [], videos := [] } 0 = .ok [] ∧
    handleClose idDecode { buffer := [], videos := [['a']] } 5 = .ok [['a']] ∧
    handleClose idDecode { buffer := [], videos := [] } 5 =
      .error (.toolExecutionFailed 5) :=
  ⟨(handleClose_classification idDecode { buffer := [], videos := [] } 0).1 rfl,
    (handleClose_classification idDecode { buffer := [], videos := [['a']] } 5).2.1
      (by decide) (by decide),
    (handleClose_classification idDecode { buffer := [], videos := [] } 5).2.2
      (by decide) rfl⟩

/-! ## Record mapper: viewCount defaulting

`parseVideoInfo` maps the raw decoded object's view-count field through the
JavaScript expression `data.view_count || 0`.  JavaScript values and
truthiness are embedded explicitly; numbers are modelled as integers
(IEEE-754 NaN is outside this embedding). -/

/-- A JavaScript value as it can appear in a decoded JSON field: a number, a
string, a boolean, `null`, or absent (`undefined`). -/
inductive JSVal
  | vNum (n : Int)
  | vStr (s : String)
  | vBool (b : Bool)
  | vNull
  | undef
deriving DecidableEq

/-- JavaScript truthiness of a `JSVal`: zero, the empty string, `false`,
`null` and `undefined` are falsy; everything else is truthy. -/
def truthy : JSVal → Bool
  | .vNum n => n ≠ 0
  | .vStr s => s ≠ ""
  | .vBool b => b
  | .vNull => false
  | .undef => false

/-- The JavaScript `||` operator on embedded values. -/
def jsOr (a b : JSVal) : JSVal := if truthy a then a else b

/-- Embeds the viewCount line of `parseVideoInfo`:
`viewCount: data.view_count || 0`.  Total, so the mapping cannot raise. -/
def mapViewCount (view_count : JSVal) : JSVal := jsOr view_count (.vNum 0)

/-- C9 (amended): the mapped viewCount equals the source field when the field
is a number (zero maps to zero through the falsy branch); it equals zero when
the field is absent or otherwise falsy; but a truthy non-numeric value is
passed through unchanged rather than defaulted to zero.  The mapping is a
total function, so it never raises. -/
theorem mapViewCount_spec (v : JSVal) :
    (∀ n : Int, v = .vNum n → mapViewCount v = .vNum n) ∧
    (truthy v = false → mapViewCount v = .vNum 0) ∧
    (truthy v = true → mapViewCount v = v) := by
  refine ⟨?_, ?_, ?_⟩
  · intro n hn
    subst hn
    unfold mapViewCount jsOr
    by_cases h : truthy (JSVal.vNum n)
    · rw [if_pos h]
    · rw [if_neg h]
      unfold truthy at h
      simp at h
      rw [h]
  · intro h
    unfold mapViewCount jsOr
    rw [h]
    rfl
  · intro h
    unfold mapViewCount jsOr
    rw [h]
    rfl

/-- Witness for C9 (amended): a nonzero number passes through, zero stays
zero, an absent field defaults to zero, and a truthy string passes through. -/
theorem mapViewCount_spec_witness :
    mapViewCount (.vNum 12345) = .vNum 12345 ∧
    mapViewCount (.vNum 0) = .vNum 0 ∧
    mapViewCount .undef = .vNum 0 ∧
    mapViewCount (.vStr "1M") = .vStr "1M" :=
  ⟨(mapViewCount_spec (.vNum 12345)).1 12345 rfl,
    (mapViewCount_spec (.vNum 0)).1 0 rfl,
    (mapViewCount_spec .undef).2.1 rfl,
    (mapViewCount_spec (.vStr "1M")).2.2 rfl⟩

/-- C9 counterexample: the raw view-count field `"1M"` is non-numeric, yet the
mapped viewCount is the string itself, not zero — `data.view_count || 0`
defaults only falsy values. -/
theorem mapViewCount_nonnumeric_cex :
    mapViewCount (.vStr "1M") = .vStr "1M" ∧ mapViewCount (.vStr "1M") ≠ .vNum 0 := by
  refine ⟨rfl, ?_⟩
  intro h
  exact JSVal.noConfusion h


/-! ## External search invoker: argument construction

`searchYouTube` merges caller options over `DEFAULT_OPTIONS` with a
JavaScript object spread and builds the `yt-dlp` argument list.  A field of
`SearchOptions` is `none` when the key is absent and `some none` when the
caller passes the key with value `undefined` — the spread overwrites in both
`some` cases.  The real computation of the absolute cutoff string
(`new Date()` minus N days, rendered `YYYYMMDD`) depends on the wall clock
and is abstracted as the `formatCutoff` parameter. -/

inductive SortOpt
  | relevance
  | upload_date
  | view_count
  | rating
deriving DecidableEq

inductive DateRange
  | today
  | this_week
  | this_month
  | this_year
deriving DecidableEq

structure SearchOptions where
  limit : Option (Option Nat) := none
  sort : Option (Option SortOpt) := none
  dateRange : Option (Option DateRange) := none
  maxAgeDays : Option (Option Nat) := none
deriving DecidableEq

/-- The source's `DEFAULT_OPTIONS`: limit 10, sort by view count, maximum age
7 days; no date-range bucket. -/
def DEFAULT_OPTIONS : SearchOptions :=
  { limit := some (some 10), sort := some (some .view_count),
    maxAgeDays := some (some 7), dateRange := none }

/-- One field of the object spread `{ ...d, ...o }`: a key present in `o`
(with any value, `undefined` included) wins over the default. -/
def spreadField (dflt o : Option β) : Option β :=
  match o with
  | some x => some x
  | none => dflt

/-- The object spread `{ ...DEFAULT_OPTIONS, ...options }`. -/
def spreadMerge (d o : SearchOptions) : SearchOptions :=
  { limit := spreadField d.limit o.limit,
    sort := spreadField d.sort o.sort,
    dateRange := spreadField d.dateRange o.dateRange,
    maxAgeDays := spreadField d.maxAgeDays o.maxAgeDays }

/-- Reading a merged field as JavaScript does: a key that is absent or holds
`undefined` both read as `undefined`. -/
def mergedMaxAge (o : SearchOptions) : Option Nat :=
  ((spreadMerge DEFAULT_OPTIONS o).maxAgeDays).join

def mergedDateRange (o : SearchOptions) : Option DateRange :=
  ((spreadMerge DEFAULT_OPTIONS o).dateRange).join

def mergedLimit (o : SearchOptions) : Option Nat :=
  ((spreadMerge DEFAULT_OPTIONS o).limit).join

def mergedSort (o : SearchOptions) : Option SortOpt :=
  ((spreadMerge DEFAULT_OPTIONS o).sort).join

/-- JavaScript truthiness of a number-or-undefined value (`0` and `undefined`
are falsy). -/
def optNatTruthy : Option Nat → Bool
  | some n => n ≠ 0
  | none => false

/-- JavaScript template rendering of a number-or-undefined value. -/
def jsNumStr : Option Nat → String
  | some n => toString n
  | none => "undefined"

/-- The source's `dateFilter` map from a named recency bucket to the tool's
relative-date token. -/
def dateRangeToken : DateRange → String
  | .today => "today"
  | .this_week => "thisweek"
  | .this_month => "thismonth"
  | .this_year => "thisyear"

/-- Embeds the date-filter block: `maxAgeDays` (when truthy) wins and becomes
an absolute `--dateafter YYYYMMDD` cutoff; otherwise a supplied bucket
becomes its relative token; otherwise nothing. -/
def dateFilterArgs (formatCutoff : Nat → String) (maxAgeDays : Option Nat)
    (dateRange : Option DateRange) : List String :=
  if optNatTruthy maxAgeDays then
    ["--dateafter", formatCutoff (maxAgeDays.getD 0)]
  else
    match dateRange with
    | some dr => ["--dateafter", dateRangeToken dr]
    | none => []

/-- Embeds the argument list built before the date filter: the
`ytsearchdate`/`ytsearch` query (prefix chosen by the truthiness of
`opts.maxAgeDays`), the fixed flags, and the `--playlist-end` pair added when
a sort other than relevance is set. -/
def baseSearchArgs (keyword : String) (o : SearchOptions) : List String :=
  let limit := mergedLimit o
  let searchQuery :=
    (if optNatTruthy (mergedMaxAge o) then "ytsearchdate" else "ytsearch") ++
      jsNumStr limit ++ ":" ++ keyword
  [searchQuery, "--dump-json", "--flat-playlist", "--no-warnings", "--quiet"] ++
    (match mergedSort o with
     | some s => if s ≠ SortOpt.relevance then ["--playlist-end", jsNumStr limit] else []
     | none => [])

/-- Embeds the full argument construction of `searchYouTube`. -/
def buildSearchArgs (formatCutoff : Nat → String) (keyword : String)
    (o : SearchOptions) : List String :=
  baseSearchArgs keyword o ++
    dateFilterArgs formatCutoff (mergedMaxAge o) (mergedDateRange o)

/-- C8 (amended): the merged maximum age (the caller's value when the key is
supplied, else the default of 7 days), whenever nonzero, is translated into
the absolute `--dateafter` cutoff and takes precedence over any named bucket;
the named bucket is translated into its relative-date token only when the
merged maximum age is absent or zero, which — given the default — requires
the caller to supply the key explicitly as zero or undefined; and omitting
the key always yields the default maximum age of 7. -/
theorem buildSearchArgs_recency (fc : Nat → String) (keyword : String)
    (o : SearchOptions) :
    (∀ n : Nat, mergedMaxAge o = some n → n ≠ 0 →
      buildSearchArgs fc keyword o =
        baseSearchArgs keyword o ++ ["--dateafter", fc n]) ∧
    (∀ dr : DateRange, optNatTruthy (mergedMaxAge o) = false →
      mergedDateRange o = some dr →
      buildSearchArgs fc keyword o =
        baseSearchArgs keyword o ++ ["--dateafter", dateRangeToken dr]) ∧
    (o.maxAgeDays = none → mergedMaxAge o = some 7) := by
  refine ⟨?_, ?_, ?_⟩
  · intro n hn hn0
    unfold buildSearchArgs dateFilterArgs
    rw [hn]
    rw [if_pos (by unfold optNatTruthy; simp [hn0])]
    rfl
  · intro dr hfalsy hdr
    unfold buildSearchArgs dateFilterArgs
    rw [hdr, if_neg (by rw [hfalsy]; simp)]
  · intro habsent
    unfold mergedMaxAge spreadMerge spreadField
    rw [habsent]
    rfl

/-- Witness for C8 (amended): a caller-supplied 3-day maximum age produces
the absolute cutoff; an explicitly-undefined maximum age lets the bucket
token through; an omitted key yields the default 7. -/
theorem buildSearchArgs_recency_witness :
    mergedMaxAge { maxAgeDays := some (some 3) } = some 3 ∧ (3 : Nat) ≠ 0 ∧
    buildSearchArgs (fun _ => "20261004") "k" { maxAgeDays := some (some 3) } =
      baseSearchArgs "k" { maxAgeDays := some (some 3) } ++
        ["--dateafter", "20261004"] ∧
    optNatTruthy (mergedMaxAge
      { maxAgeDays := some none, dateRange := some (some .today) }) = false ∧
    mergedDateRange { maxAgeDays := some none, dateRange := some (some .today) } =
      some .today ∧
    buildSearchArgs (fun _ => "20261004") "k"
        { maxAgeDays := some none, dateRange := some (some .today) } =
      baseSearchArgs "k" { maxAgeDays := some none, dateRange := some (some .today) } ++
        ["--dateafter", "today"] ∧
    ({ dateRange := some (some .today) } : SearchOptions).maxAgeDays = none ∧
    mergedMaxAge { dateRange := some (some .today) } = some 7 :=
  ⟨by decide, by decide,
    (buildSearchArgs_recency (fun _ => "20261004") "k"
      { maxAgeDays := some (some 3) }).1 3 (by decide) (by decide),
    by decide, by decide,
    (buildSearchArgs_recency (fun _ => "20261004") "k"
      { maxAgeDays := some none, dateRange := some (some .today) }).2.1
      .today (by decide) (by decide),
    by decide,
    (buildSearchArgs_recency (fun _ => "20261004") "k"
      { dateRange := some (some .today) }).2.2 rfl⟩

/-- C8 counterexample: with a named bucket supplied and the maximum-age key
simply omitted, the default 7-day maximum age shadows the bucket: the
arguments carry an absolute `YYYYMMDD` cutoff and the bucket token never
appears — the claim's "named bucket with no maximum age supplied" case does
not hold on the code. -/
theorem buildSearchArgs_bucket_shadowed_cex :
    buildSearchArgs (fun _ => "20261004") "news" { dateRange := some (some .today) } =
      ["ytsearchdate10:news", "--dump-json", "--flat-playlist", "--no-warnings",
       "--quiet", "--playlist-end", "10", "--dateafter", "20261004"] ∧
    "today" ∉ buildSearchArgs (fun _ => "20261004") "news"
      { dateRange := some (some .today) } := by
  decide


/-! ## Collection orchestrator (collector.ts)

The database is explicit record state; drizzle queries become list
operations preserving row order.  Timestamps are `Nat`.  The external
search (`searchYouTube`) is a parameter returning either a record list or
the rejection message; `collectByKeyword` additionally reports how many
times it invoked the external search, so that zero-invocation claims are
statable.  The persistence collaborator itself is deterministic here, so
the per-record catch around the video upsert never fires and every
returned record counts as collected. -/

structure Keyword where
  id : Nat
  name : String
  isActive : Bool
deriving DecidableEq

/-- A record returned by the external search (the mapper's output shape). -/
structure VideoInfo where
  id : String
  title : String
  url : String
  channel : String
  viewCount : Option Nat
  likeCount : Option Nat
  duration : Option String
  thumbnail : Option String
  publishedAt : Option Nat
deriving DecidableEq

/-- A row of the `videos` table (schema.ts): `id` is the autoincrement
primary key, `videoId` the unique external id. -/
structure VideoRow where
  id : Nat
  videoId : String
  keywordId : Nat
  title : String
  url : String
  channelName : String
  viewCount : Option Nat
  likeCount : Option Nat
  duration : Option String
  thumbnail : Option String
  publishedAt : Option Nat
  collectedAt : Nat
deriving DecidableEq

/-- A row of the `trends` table. -/
structure TrendRow where
  id : Nat
  keywordId : Nat
  date : Nat
  period : String
  videoCount : Nat
  totalViews : Nat
  avgViews : Nat
  topVideoId : Nat
deriving DecidableEq

/-- A row of the `collection_logs` table. -/
structure LogRow where
  startedAt : Nat
  completedAt : Nat
  keywordCount : Nat
  videoCount : Nat
  status : String
deriving DecidableEq

structure DB where
  keywords : List Keyword
  videos : List VideoRow
  trends : List TrendRow
  collectionLogs : List LogRow
  nextVideoId : Nat
  nextTrendId : Nat
deriving DecidableEq

/-- Embeds the video upsert of `collectByKeyword`: insert keyed by the
unique `videoId`, on conflict update title, view and like counts and
`collectedAt` in place. -/
def upsertVideo (now : Nat) (kid : Nat) (db : DB) (v : VideoInfo) : DB :=
  if db.videos.any (fun r => r.videoId = v.id) then
    { db with videos := db.videos.map (fun r =>
        if r.videoId = v.id then
          { r with
            title := v.title, viewCount := some (v.viewCount.getD 0),
            likeCount := v.likeCount, collectedAt := now }
        else r) }
  else
    { db with
      videos := db.videos ++ [{
        id := db.nextVideoId, videoId := v.id,
        keywordId := kid, title := v.title, url := v.url,
        channelName := v.channel, viewCount := some (v.viewCount.getD 0),
        likeCount := v.likeCount, duration := v.duration,
        thumbnail := v.thumbnail, publishedAt := v.publishedAt,
        collectedAt := now }],
      nextVideoId := db.nextVideoId + 1 }

structure CollectResult where
  keywordId : Nat
  keywordName : String
  videosCollected : Nat
  errors : Option String
deriving DecidableEq

/-- JavaScript truthiness of the optional error string (`if (result.errors)`). -/
def strTruthy : Option String → Bool
  | some s => s ≠ ""
  | none => false

/-- Embeds `collectByKeyword`: look the keyword up by id (not found is the
only thrown error); an inactive keyword returns immediately with zero
records and the inactive marker, invoking the external search zero times;
otherwise run one search, persist every record by upsert, and report the
count, or catch the search failure as this keyword's error string.  The
final `Nat` counts external search invocations. -/
def collectByKeyword (search : String → Nat → Except String (List VideoInfo))
    (now : Nat) (db : DB) (keywordId : Nat) (limit : Nat) :
    Except String (CollectResult × DB × Nat) :=
  match db.keywords.find? (fun k => k.id = keywordId) with
  | none => .error ("Keyword not found: " ++ toString keywordId)
  | some keyword =>
    if !keyword.isActive then
      .ok ({ keywordId := keywordId, keywordName := keyword.name,
             videosCollected := 0, errors := some "Keyword is inactive" }, db, 0)
    else
      match search keyword.name limit with
      | .ok searchResults =>
        .ok ({ keywordId := keywordId, keywordName := keyword.name,
               videosCollected := searchResults.length, errors := none },
             searchResults.foldl (upsertVideo now keyword.id) db, 1)
      | .error e =>
        .ok ({ keywordId := keywordId, keywordName := keyword.name,
               videosCollected := 0, errors := some e }, db, 1)

/-- The sequential keyword loop of `collectAll`, accumulating the result
list, the video total, the error flag and the invocation count. -/
def collectLoop (search : String → Nat → Except String (List VideoInfo))
    (now : Nat) (limit : Nat) :
    List Keyword → DB → List CollectResult → Nat → Bool → Nat →
    Except String (List CollectResult × Nat × Bool × DB × Nat)
  | [], db, results, totalVideos, hasErrors, calls =>
    .ok (results, totalVideos, hasErrors, db, calls)
  | k :: ks, db, results, totalVideos, hasErrors, calls =>
    match collectByKeyword search now db k.id limit with
    | .error e => .error e
    | .ok (result, db2, c) =>
      collectLoop search now limit ks db2 (results ++ [result])
        (totalVideos + result.videosCollected)
        (hasErrors || strTruthy result.errors) (calls + c)

/-! ## Trend aggregator (updateTrends) -/

/-- The drizzle query for the current day's videos of one keyword:
`keywordId` equal and `collectedAt` at or after local midnight (`today`). -/
def todayVideos (videos : List VideoRow) (kid : Nat) (today : Nat) : List VideoRow :=
  videos.filter (fun v => decide (v.keywordId = kid ∧ today ≤ v.collectedAt))

/-- `v.viewCount || 0`. -/
def viewsOf (v : VideoRow) : Nat := v.viewCount.getD 0

/-- `Math.round` of the exact quotient `num/den` for `den > 0`:
`floor(num/den + 1/2)`.  (The source divides IEEE doubles; the embedding
computes the exact rational.) -/
def jsRound (num den : Nat) : Nat := (2 * num + den) / (2 * den)

/-- Embeds the `reduce` picking the top video: keep the accumulator unless
the current record's view count is strictly greater, so ties go to the
first-encountered record. -/
def topVideoOf : VideoRow → List VideoRow → VideoRow
  | m, [] => m
  | m, v :: vs => topVideoOf (if viewsOf v > viewsOf m then v else m) vs

/-- The composite upsert key of the `trends` table. -/
def trendKeyB (kid today : Nat) (t : TrendRow) : Bool :=
  decide (t.keywordId = kid ∧ t.date = today ∧ t.period = "daily")

/-- The in-place update of an existing trend row with the recomputed
aggregate: the source sets `videoCount`, `totalViews`, `avgViews` and
`topVideoId` and leaves the key and `id` alone. -/
def aggUpdateRow (v0 : VideoRow) (rest : List VideoRow) (t : TrendRow) : TrendRow :=
  { t with
    videoCount := (v0 :: rest).length,
    totalViews := ((v0 :: rest).map viewsOf).sum,
    avgViews := jsRound (((v0 :: rest).map viewsOf).sum) (v0 :: rest).length,
    topVideoId := (topVideoOf v0 rest).id }

/-- The freshly inserted trend row for a key with no existing row. -/
def aggInsertRow (today kid nid : Nat) (v0 : VideoRow) (rest : List VideoRow) :
    TrendRow :=
  { id := nid, keywordId := kid, date := today, period := "daily",
    videoCount := (v0 :: rest).length,
    totalViews := ((v0 :: rest).map viewsOf).sum,
    avgViews := jsRound (((v0 :: rest).map viewsOf).sum) (v0 :: rest).length,
    topVideoId := (topVideoOf v0 rest).id }

/-- The write step of `updateTrends` for one keyword with a nonempty
current-day video list: recompute the aggregate and upsert it by
`(keywordId, date, period)` — update the found row in place, else insert a
fresh row. -/
def updateTrendsAgg (today : Nat) (db : DB) (k : Keyword) (v0 : VideoRow)
    (rest : List VideoRow) : DB :=
  match db.trends.find? (trendKeyB k.id today) with
  | some existing =>
    { db with trends := db.trends.map (fun t =>
        if t.id = existing.id then aggUpdateRow v0 rest t else t) }
  | none =>
    { db with
      trends := db.trends ++ [aggInsertRow today k.id db.nextTrendId v0 rest],
      nextTrendId := db.nextTrendId + 1 }

/-- One keyword of the `updateTrends` loop: skip the keyword entirely when it
has no current-day videos. -/
def updateTrendsKeyword (today : Nat) (db : DB) (k : Keyword) : DB :=
  match todayVideos db.videos k.id today with
  | [] => db
  | v0 :: rest => updateTrendsAgg today db k v0 rest

/-- Embeds `updateTrends`: recompute the current day's aggregate for every
keyword, active or not. -/
def updateTrends (today : Nat) (db : DB) : DB :=
  db.keywords.foldl (updateTrendsKeyword today) db

structure CollectAllResult where
  startedAt : Nat
  completedAt : Nat
  totalKeywords : Nat
  totalVideos : Nat
  results : List CollectResult
  status : String
deriving DecidableEq

/-- Embeds `collectAll`: preflight the tool (missing tool is fatal), load the
active keywords (none is an immediate empty success), run the sequential
loop, classify the run status, append one collection-log row, run the trend
aggregation pass, and return the run result.  The trailing `Nat` is the
total number of external search invocations. -/
def collectAll (search : String → Nat → Except String (List VideoInfo))
    (hasYtDlp : Bool) (now : Nat) (db : DB) (limit : Nat) :
    Except String (CollectAllResult × DB × Nat) :=
  if !hasYtDlp then .error "yt-dlp is not installed"
  else
    let activeKeywords := db.keywords.filter (fun k => k.isActive)
    if activeKeywords.isEmpty then
      .ok ({ startedAt := now, completedAt := now, totalKeywords := 0,
             totalVideos := 0, results := [], status := "success" }, db, 0)
    else
      match collectLoop search now limit activeKeywords db [] 0 false 0 with
      | .error e => .error e
      | .ok (results, totalVideos, hasErrors, db2, calls) =>
        let status := if hasErrors then "partial"
          else if totalVideos > 0 then "success" else "failed"
        let db3 := { db2 with collectionLogs := db2.collectionLogs ++
          [{ startedAt := now, completedAt := now,
             keywordCount := activeKeywords.length, videoCount := totalVideos,
             status := status }] }
        .ok ({ startedAt := now, completedAt := now,
               totalKeywords := activeKeywords.length, totalVideos := totalVideos,
               results := results, status := status }, updateTrends now db3, calls)


/-- C7: inactive-keyword short-circuit.  When the keyword exists and is
inactive, `collectByKeyword` returns immediately — zero external search
invocations, zero records, the explicit inactive marker, and an untouched
database — for every search oracle. -/
theorem collectByKeyword_inactive (search : String → Nat → Except String (List VideoInfo))
    (now : Nat) (db : DB) (kid limit : Nat) (k : Keyword)
    (hfind : db.keywords.find? (fun kw => kw.id = kid) = some k)
    (hinactive : k.isActive = false) :
    collectByKeyword search now db kid limit =
      .ok ({ keywordId := kid, keywordName := k.name, videosCollected := 0,
             errors := some "Keyword is inactive" }, db, 0) := by
  unfold collectByKeyword
  rw [hfind]
  dsimp only
  rw [if_pos (by simp [hinactive])]

/-- Witness for C7: a concrete database whose only keyword is inactive, with
an oracle that would return a record if it were ever invoked. -/
theorem collectByKeyword_inactive_witness :
    ({ keywords := [{ id := 2, name := "idle", isActive := false }], videos := [],
       trends := [], collectionLogs := [], nextVideoId := 0,
       nextTrendId := 0 } : DB).keywords.find? (fun kw => kw.id = 2) =
      some { id := 2, name := "idle", isActive := false } ∧
    collectByKeyword (fun _ _ => .error "never invoked") 0
        { keywords := [{ id := 2, name := "idle", isActive := false }], videos := [],
          trends := [], collectionLogs := [], nextVideoId := 0, nextTrendId := 0 }
        2 10 =
      .ok ({ keywordId := 2, keywordName := "idle", videosCollected := 0,
             errors := some "Keyword is inactive" },
           { keywords := [{ id := 2, name := "idle", isActive := false }],
             videos := [], trends := [], collectionLogs := [], nextVideoId := 0,
             nextTrendId := 0 }, 0) :=
  ⟨by decide,
    collectByKeyword_inactive (fun _ _ => .error "never invoked") 0
      { keywords := [{ id := 2, name := "idle", isActive := false }], videos := [],
        trends := [], collectionLogs := [], nextVideoId := 0, nextTrendId := 0 }
      2 10 { id := 2, name := "idle", isActive := false } (by decide) rfl⟩

theorem collectByKeyword_keywordId
    (search : String → Nat → Except String (List VideoInfo)) (now : Nat) (db : DB)
    (kid limit : Nat) (r : CollectResult) (db2 : DB) (c : Nat)
    (h : collectByKeyword search now db kid limit = .ok (r, db2, c)) :
    r.keywordId = kid := by
  unfold collectByKeyword at h
  cases hf : db.keywords.find? (fun k => k.id = kid) with
  | none =>
    rw [hf] at h
    exact absurd h (by simp)
  | some k =>
    rw [hf] at h
    dsimp only at h
    by_cases hact : k.isActive
    · rw [if_neg (by simp [hact])] at h
      cases hs : search k.name limit with
      | ok vs =>
        rw [hs] at h
        simp at h
        rw [← h.1]
      | error e =>
        rw [hs] at h
        simp at h
        rw [← h.1]
    · rw [if_pos (by simp [hact])] at h
      simp at h
      rw [← h.1]

theorem collectLoop_spec (search : String → Nat → Except String (List VideoInfo))
    (now limit : Nat) :
    ∀ (ks : List Keyword) (db : DB) (res0 : List CollectResult) (tv0 : Nat)
      (he0 : Bool) (c0 : Nat) (res : List CollectResult) (tv : Nat) (he : Bool)
      (db2 : DB) (c : Nat),
      collectLoop search now limit ks db res0 tv0 he0 c0 =
        .ok (res, tv, he, db2, c) →
      ∃ newres : List CollectResult,
        res = res0 ++ newres ∧
        newres.map (fun r => r.keywordId) = ks.map (fun k => k.id) ∧
        tv = tv0 + (newres.map (fun r => r.videosCollected)).sum ∧
        he = (he0 || newres.any (fun r => strTruthy r.errors)) := by
  intro ks
  induction ks with
  | nil =>
    intro db res0 tv0 he0 c0 res tv he db2 c h
    unfold collectLoop at h
    simp at h
    exact ⟨[], by simp [h.1], by simp, by simp [h.2.1], by simp [h.2.2.1]⟩
  | cons k ks ih =>
    intro db res0 tv0 he0 c0 res tv he db2 c h
    unfold collectLoop at h
    cases hck : collectByKeyword search now db k.id limit with
    | error e =>
      rw [hck] at h
      exact absurd h (by simp)
    | ok p =>
      obtain ⟨r, dbx, cx⟩ := p
      rw [hck] at h
      obtain ⟨newres2, h1, h2, h3, h4⟩ := ih dbx (res0 ++ [r])
        (tv0 + r.videosCollected) (he0 || strTruthy r.errors) (c0 + cx)
        res tv he db2 c h
      refine ⟨r :: newres2, ?_, ?_, ?_, ?_⟩
      · rw [h1, List.append_assoc]
        rfl
      · rw [List.map_cons, List.map_cons, h2,
          collectByKeyword_keywordId search now db k.id limit r dbx cx hck]
      · rw [h3, List.map_cons, List.sum_cons]
        omega
      · rw [h4, List.any_cons, Bool.or_assoc]

/-- C10: result consistency of `collectAll`.  For every completed run with a
successful tool preflight and a nonempty active-keyword set: the per-keyword
result list carries exactly one entry per active keyword in iteration order,
`totalKeywords` equals the number of active keywords and the length of the
result list, and `totalVideos` is the sum of the per-keyword
`videosCollected`. -/
theorem collectAll_result_consistency
    (search : String → Nat → Except String (List VideoInfo)) (now : Nat) (db : DB)
    (limit : Nat) (res : CollectAllResult) (db2 : DB) (calls : Nat)
    (hactive : db.keywords.filter (fun k => k.isActive) ≠ [])
    (hrun : collectAll search true now db limit = .ok (res, db2, calls)) :
    res.results.map (fun r => r.keywordId) =
      (db.keywords.filter (fun k => k.isActive)).map (fun k => k.id) ∧
    res.totalKeywords = (db.keywords.filter (fun k => k.isActive)).length ∧
    res.results.length = res.totalKeywords ∧
    res.totalVideos = (res.results.map (fun r => r.videosCollected)).sum := by
  unfold collectAll at hrun
  rw [if_neg (by simp)] at hrun
  rw [if_neg (by simpa [List.isEmpty_iff] using hactive)] at hrun
  cases hcl : collectLoop search now limit
      (db.keywords.filter (fun k => k.isActive)) db [] 0 false 0 with
  | error e =>
    rw [hcl] at hrun
    exact absurd hrun (by simp)
  | ok q =>
    obtain ⟨results, totalVideos, hasErrors, db3, calls2⟩ := q
    rw [hcl] at hrun
    simp only [Except.ok.injEq, Prod.mk.injEq] at hrun
    obtain ⟨hres, -, -⟩ := hrun
    obtain ⟨newres, hn1, hn2, hn3, hn4⟩ :=
      collectLoop_spec search now limit _ db [] 0 false 0 results totalVideos
        hasErrors db3 calls2 hcl
    rw [List.nil_append] at hn1
    subst hn1
    have hmap : res.results.map (fun r => r.keywordId) =
        (db.keywords.filter (fun k => k.isActive)).map (fun k => k.id) := by
      rw [← hres]
      exact hn2
    refine ⟨hmap, ?_, ?_, ?_⟩
    · rw [← hres]
    · have := congrArg List.length hmap
      simp only [List.length_map] at this
      rw [this, ← hres]
    · rw [← hres]
      simp only []
      omega

/-- The run used to exercise C10: one active keyword whose search yields two
records. -/
def exSearchTwo : String → Nat → Except String (List VideoInfo) :=
  fun _ _ => .ok [
    { id := "v1", title := "t1", url := "u1", channel := "c1",
      viewCount := some 5, likeCount := none, duration := none,
      thumbnail := none, publishedAt := none },
    { id := "v2", title := "t2", url := "u2", channel := "c2",
      viewCount := some 7, likeCount := none, duration := none,
      thumbnail := none, publishedAt := none }]

def exDbTen : DB :=
  { keywords := [{ id := 1, name := "k", isActive := true }], videos := [],
    trends := [], collectionLogs := [], nextVideoId := 0, nextTrendId := 0 }

def exResTen : CollectAllResult :=
  { startedAt := 3, completedAt := 3, totalKeywords := 1, totalVideos := 2,
    results := [{ keywordId := 1, keywordName := "k", videosCollected := 2,
                  errors := none }],
    status := "success" }

def exDbTenAfter : DB :=
  { keywords := [{ id := 1, name := "k", isActive := true }],
    videos := [
      { id := 0, videoId := "v1", keywordId := 1, title := "t1", url := "u1",
        channelName := "c1", viewCount := some 5, likeCount := none,
        duration := none, thumbnail := none, publishedAt := none,
        collectedAt := 3 },
      { id := 1, videoId := "v2", keywordId := 1, title := "t2", url := "u2",
        channelName := "c2", viewCount := some 7, likeCount := none,
        duration := none, thumbnail := none, publishedAt := none,
        collectedAt := 3 }],
    trends := [{ id := 0, keywordId := 1, date := 3, period := "daily",
                 videoCount := 2, totalViews := 12, avgViews := 6,
                 topVideoId := 1 }],
    collectionLogs := [{ startedAt := 3, completedAt := 3, keywordCount := 1,
                         videoCount := 2, status := "success" }],
    nextVideoId := 2, nextTrendId := 1 }

/-- Witness for C10: at the concrete two-record run, the per-keyword entry
list, the totals and the video sum line up as the theorem states. -/
theorem collectAll_result_consistency_witness :
    (exDbTen.keywords.filter (fun k => k.isActive) ≠ []) ∧
    collectAll exSearchTwo true 3 exDbTen 10 = .ok (exResTen, exDbTenAfter, 1) ∧
    (exResTen.results.map (fun r => r.keywordId) =
        (exDbTen.keywords.filter (fun k => k.isActive)).map (fun k => k.id) ∧
      exResTen.totalKeywords =
        (exDbTen.keywords.filter (fun k => k.isActive)).length ∧
      exResTen.results.length = exResTen.totalKeywords ∧
      exResTen.totalVideos =
        (exResTen.results.map (fun r => r.videosCollected)).sum) :=
  ⟨by decide, by unfold collectAll exSearchTwo exDbTen; rfl,
    collectAll_result_consistency exSearchTwo 3 exDbTen 10 exResTen exDbTenAfter 1
      (by decide) (by unfold collectAll exSearchTwo exDbTen; rfl)⟩

/-! ## Run-status classification (C1) -/

/-- C1 (amended): for every completed run over a nonempty active-keyword set,
the status is "partial" exactly when some per-keyword entry carries a truthy
error string — regardless of how many videos were collected; "success"
exactly when no entry errored and at least one video was collected; and
"failed" exactly when no entry errored and zero videos were collected. -/
theorem collectAll_status_classification
    (search : String → Nat → Except String (List VideoInfo)) (now : Nat) (db : DB)
    (limit : Nat) (res : CollectAllResult) (db2 : DB) (calls : Nat)
    (hactive : db.keywords.filter (fun k => k.isActive) ≠ [])
    (hrun : collectAll search true now db limit = .ok (res, db2, calls)) :
    (res.status = "partial" ↔
      res.results.any (fun r => strTruthy r.errors) = true) ∧
    (res.status = "success" ↔
      res.results.any (fun r => strTruthy r.errors) = false ∧ res.totalVideos > 0) ∧
    (res.status = "failed" ↔
      res.results.any (fun r => strTruthy r.errors) = false ∧ res.totalVideos = 0) := by
  unfold collectAll at hrun
  rw [if_neg (by simp)] at hrun
  rw [if_neg (by simpa [List.isEmpty_iff] using hactive)] at hrun
  cases hcl : collectLoop search now limit
      (db.keywords.filter (fun k => k.isActive)) db [] 0 false 0 with
  | error e =>
    rw [hcl] at hrun
    exact absurd hrun (by simp)
  | ok q =>
    obtain ⟨results, totalVideos, hasErrors, db3, calls2⟩ := q
    rw [hcl] at hrun
    simp only [Except.ok.injEq, Prod.mk.injEq] at hrun
    obtain ⟨hres, -, -⟩ := hrun
    obtain ⟨newres, hn1, -, -, hn4⟩ :=
      collectLoop_spec search now limit _ db [] 0 false 0 results totalVideos
        hasErrors db3 calls2 hcl
    rw [List.nil_append] at hn1
    subst hn1
    rw [Bool.false_or] at hn4
    rw [← hres]
    dsimp only
    rw [← hn4]
    cases hasErrors with
    | true =>
      rw [if_pos rfl]
      refine ⟨iff_of_true rfl rfl, ?_, ?_⟩
      · exact iff_of_false (by decide) (by simp)
      · exact iff_of_false (by decide) (by simp)
    | false =>
      rw [if_neg (by simp)]
      by_cases htv : totalVideos > 0
      · rw [if_pos htv]
        refine ⟨?_, iff_of_true rfl ⟨rfl, htv⟩, ?_⟩
        · exact iff_of_false (by decide) (by simp)
        · exact iff_of_false (by decide) (fun hh => by omega)
      · rw [if_neg htv]
        refine ⟨?_, ?_, iff_of_true rfl ⟨rfl, by omega⟩⟩
        · exact iff_of_false (by decide) (by simp)
        · exact iff_of_false (by decide) (fun hh => htv hh.2)

/-- The run used to exercise C1: one active keyword whose search rejects. -/
def exSearchFail : String → Nat → Except String (List VideoInfo) :=
  fun _ _ => .error "boom"

def exDbOne : DB :=
  { keywords := [{ id := 1, name := "k", isActive := true }], videos := [],
    trends := [], collectionLogs := [], nextVideoId := 0, nextTrendId := 0 }

def exResPartial : CollectAllResult :=
  { startedAt := 0, completedAt := 0, totalKeywords := 1, totalVideos := 0,
    results := [{ keywordId := 1, keywordName := "k", videosCollected := 0,
                  errors := some "boom" }],
    status := "partial" }

def exDbAfter : DB :=
  { exDbOne with collectionLogs := [{
      startedAt := 0, completedAt := 0,
      keywordCount := 1, videoCount := 0, status := "partial" }] }

/-- Witness for C1 (amended) at the failing-search run. -/
theorem collectAll_status_classification_witness :
    (exDbOne.keywords.filter (fun k => k.isActive) ≠ []) ∧
    collectAll exSearchFail true 0 exDbOne 10 = .ok (exResPartial, exDbAfter, 1) ∧
    ((exResPartial.status = "partial" ↔
        exResPartial.results.any (fun r => strTruthy r.errors) = true) ∧
      (exResPartial.status = "success" ↔
        exResPartial.results.any (fun r => strTruthy r.errors) = false ∧
          exResPartial.totalVideos > 0) ∧
      (exResPartial.status = "failed" ↔
        exResPartial.results.any (fun r => strTruthy r.errors) = false ∧
          exResPartial.totalVideos = 0)) :=
  ⟨by decide, by unfold collectAll exSearchFail exDbOne; rfl,
    collectAll_status_classification exSearchFail 0 exDbOne 10 exResPartial
      exDbAfter 1 (by decide) (by unfold collectAll exSearchFail exDbOne; rfl)⟩

/-- C1 counterexample: a run whose only keyword fails with a tool error and
which collects zero videos is classified "partial" by the code, not "failed"
as the claim states — the error flag wins over the zero-video case. -/
theorem collectAll_status_zero_videos_cex :
    ((collectAll exSearchFail true 0 exDbOne 10).map
      (fun x => (x.1.status, x.1.totalVideos,
                 x.1.results.any (fun r => strTruthy r.errors)))) =
      .ok ("partial", 0, true) := by
  unfold collectAll exSearchFail exDbOne
  rfl


/-! ## Trend aggregation: correctness and idempotence (C6) -/

theorem topVideoOf_mem : ∀ (vs : List VideoRow) (m : VideoRow),
    topVideoOf m vs ∈ m :: vs := by
  intro vs
  induction vs with
  | nil => intro m; simp [topVideoOf]
  | cons v vs ih =>
    intro m
    rw [show topVideoOf m (v :: vs) =
      topVideoOf (if viewsOf v > viewsOf m then v else m) vs from rfl]
    rcases List.mem_cons.mp (ih (if viewsOf v > viewsOf m then v else m)) with h | h
    · rw [h]
      by_cases hc : viewsOf v > viewsOf m
      · rw [if_pos hc]; simp
      · rw [if_neg hc]; simp
    · simp [h]

theorem topVideoOf_ge : ∀ (vs : List VideoRow) (m : VideoRow),
    ∀ u ∈ m :: vs, viewsOf u ≤ viewsOf (topVideoOf m vs) := by
  intro vs
  induction vs with
  | nil =>
    intro m u hu
    rcases List.mem_cons.mp hu with h | h
    · rw [h]; exact Nat.le_refl _
    · simp at h
  | cons v vs ih =>
    intro m u hu
    rw [show topVideoOf m (v :: vs) =
      topVideoOf (if viewsOf v > viewsOf m then v else m) vs from rfl]
    have hm : viewsOf m ≤ viewsOf (if viewsOf v > viewsOf m then v else m) := by
      by_cases hc : viewsOf v > viewsOf m
      · rw [if_pos hc]; omega
      · rw [if_neg hc]
    have hv : viewsOf v ≤ viewsOf (if viewsOf v > viewsOf m then v else m) := by
      by_cases hc : viewsOf v > viewsOf m
      · rw [if_pos hc]
      · rw [if_neg hc]; omega
    have htop := ih (if viewsOf v > viewsOf m then v else m)
      (if viewsOf v > viewsOf m then v else m) (by simp)
    rcases List.mem_cons.mp hu with h | h
    · rw [h]; omega
    · rcases List.mem_cons.mp h with h2 | h2
      · rw [h2]; omega
      · exact ih _ u (List.mem_cons_of_mem _ h2)

theorem topVideoOf_first : ∀ (vs : List VideoRow) (m : VideoRow),
    ∃ pre post, m :: vs = pre ++ topVideoOf m vs :: post ∧
      (∀ v ∈ pre, viewsOf v < viewsOf (topVideoOf m vs)) ∧
      (∀ v ∈ post, viewsOf v ≤ viewsOf (topVideoOf m vs)) := by
  intro vs
  induction vs with
  | nil =>
    intro m
    exact ⟨[], [], rfl, by simp, by simp⟩
  | cons v vs ih =>
    intro m
    rw [show topVideoOf m (v :: vs) =
      topVideoOf (if viewsOf v > viewsOf m then v else m) vs from rfl]
    by_cases hc : viewsOf v > viewsOf m
    · rw [if_pos hc]
      obtain ⟨pre, post, heq, hpre, hpost⟩ := ih v
      refine ⟨m :: pre, post, ?_, ?_, hpost⟩
      · rw [List.cons_append, ← heq]
      · intro u hu
        rcases List.mem_cons.mp hu with h | h
        · have hvt : viewsOf v ≤ viewsOf (topVideoOf v vs) :=
            topVideoOf_ge vs v v (by simp)
          rw [h]
          omega
        · exact hpre u h
    · rw [if_neg hc]
      obtain ⟨pre, post, heq, hpre, hpost⟩ := ih m
      cases pre with
      | nil =>
        simp only [List.nil_append] at heq
        have hm : topVideoOf m vs = m := by
          have := congrArg (fun l => l.head?) heq
          simpa using this.symm
        have hvs : vs = post := by
          have := congrArg (fun l => l.tail) heq
          simpa using this
        refine ⟨[], v :: post, ?_, by simp, ?_⟩
        · rw [List.nil_append, hm, ← hvs]
        · intro u hu
          rcases List.mem_cons.mp hu with h | h
          · rw [h, hm]
            omega
          · exact hpost u h
      | cons p pre2 =>
        rw [List.cons_append] at heq
        obtain ⟨hp1, hp2⟩ := List.cons_eq_cons.mp heq
        have hmlt : viewsOf m < viewsOf (topVideoOf m vs) := by
          have := hpre p (by simp)
          rw [← hp1] at this
          exact this
        refine ⟨m :: v :: pre2, post, ?_, ?_, hpost⟩
        · rw [List.cons_append, List.cons_append, ← hp2]
        · intro u hu
          rcases List.mem_cons.mp hu with h | h
          · rw [h]; exact hmlt
          · rcases List.mem_cons.mp h with h2 | h2
            · rw [h2]; omega
            · exact hpre u (List.mem_cons_of_mem p h2)

/-- The schema-level well-formedness of the trends table: primary-key ids are
distinct and below the autoincrement counter, and the composite upsert key
`(keywordId, date, period)` identifies at most one row. -/
def trendsWF (db : DB) : Prop :=
  (db.trends.map (fun t => t.id)).Nodup ∧
  (∀ t ∈ db.trends, t.id < db.nextTrendId) ∧
  (∀ t1 ∈ db.trends, ∀ t2 ∈ db.trends,
    t1.keywordId = t2.keywordId → t1.date = t2.date → t1.period = t2.period →
      t1 = t2)

/-- The aggregate values the claim specifies for a keyword whose current-day
videos are `v0 :: rest`. -/
def aggProps (today kid : Nat) (v0 : VideoRow) (rest : List VideoRow)
    (t : TrendRow) : Prop :=
  t.keywordId = kid ∧ t.date = today ∧ t.period = "daily" ∧
  t.videoCount = (v0 :: rest).length ∧
  t.totalViews = ((v0 :: rest).map viewsOf).sum ∧
  t.avgViews = jsRound (((v0 :: rest).map viewsOf).sum) (v0 :: rest).length ∧
  t.topVideoId = (topVideoOf v0 rest).id

theorem trendKeyB_iff (kid today : Nat) (t : TrendRow) :
    trendKeyB kid today t = true ↔
      t.keywordId = kid ∧ t.date = today ∧ t.period = "daily" := by
  unfold trendKeyB
  simp


theorem updateTrendsKeyword_nil (today : Nat) (db : DB) (k : Keyword)
    (h : todayVideos db.videos k.id today = []) :
    updateTrendsKeyword today db k = db := by
  unfold updateTrendsKeyword
  rw [h]

theorem updateTrendsKeyword_cons (today : Nat) (db : DB) (k : Keyword)
    (v0 : VideoRow) (rest : List VideoRow)
    (h : todayVideos db.videos k.id today = v0 :: rest) :
    updateTrendsKeyword today db k = updateTrendsAgg today db k v0 rest := by
  unfold updateTrendsKeyword
  rw [h]

theorem updateTrendsAgg_update (today : Nat) (db : DB) (k : Keyword)
    (v0 : VideoRow) (rest : List VideoRow) (e : TrendRow)
    (hfind : db.trends.find? (trendKeyB k.id today) = some e) :
    updateTrendsAgg today db k v0 rest =
      { db with trends := db.trends.map (fun t =>
          if t.id = e.id then aggUpdateRow v0 rest t else t) } := by
  unfold updateTrendsAgg
  rw [hfind]

theorem updateTrendsAgg_insert (today : Nat) (db : DB) (k : Keyword)
    (v0 : VideoRow) (rest : List VideoRow)
    (hfind : db.trends.find? (trendKeyB k.id today) = none) :
    updateTrendsAgg today db k v0 rest =
      { db with
        trends := db.trends ++ [aggInsertRow today k.id db.nextTrendId v0 rest],
        nextTrendId := db.nextTrendId + 1 } := by
  unfold updateTrendsAgg
  rw [hfind]

theorem aggUpdateRow_id (v0 : VideoRow) (rest : List VideoRow) (t : TrendRow) :
    (aggUpdateRow v0 rest t).id = t.id := rfl

theorem aggUpdateRow_key (v0 : VideoRow) (rest : List VideoRow) (t : TrendRow) :
    (aggUpdateRow v0 rest t).keywordId = t.keywordId ∧
    (aggUpdateRow v0 rest t).date = t.date ∧
    (aggUpdateRow v0 rest t).period = t.period := ⟨rfl, rfl, rfl⟩

/-- The effect of the aggregate upsert on the trends table: well-formedness
is preserved, a row with the claimed aggregate values for this keyword is
present afterwards, and every row of a different keyword survives
unchanged. -/
theorem updateTrendsAgg_spec (today : Nat) (db : DB) (k : Keyword)
    (v0 : VideoRow) (rest : List VideoRow) (hwf : trendsWF db) :
    trendsWF (updateTrendsAgg today db k v0 rest) ∧
    (∃ t ∈ (updateTrendsAgg today db k v0 rest).trends,
      aggProps today k.id v0 rest t) ∧
    (∀ r ∈ db.trends, r.keywordId ≠ k.id →
      r ∈ (updateTrendsAgg today db k v0 rest).trends) := by
  obtain ⟨hnd, hbound, hkey⟩ := hwf
  cases hf : db.trends.find? (trendKeyB k.id today) with
  | some e =>
    rw [updateTrendsAgg_update today db k v0 rest e hf]
    have he_mem : e ∈ db.trends := List.mem_of_find?_eq_some hf
    have he_key := (trendKeyB_iff k.id today e).mp (List.find?_some hf)
    have hφid : ∀ t : TrendRow,
        (if t.id = e.id then aggUpdateRow v0 rest t else t).id = t.id := by
      intro t
      by_cases h : t.id = e.id
      · rw [if_pos h, aggUpdateRow_id]
      · rw [if_neg h]
    have hφkeep : ∀ r ∈ db.trends, r.keywordId ≠ k.id →
        (if r.id = e.id then aggUpdateRow v0 rest r else r) = r := by
      intro r hr hrk
      rw [if_neg]
      intro hid
      have : r = e := List.inj_on_of_nodup_map hnd hr he_mem hid
      rw [this] at hrk
      exact hrk he_key.1
    refine ⟨⟨?_, ?_, ?_⟩, ?_, ?_⟩
    · have : (db.trends.map (fun t =>
          if t.id = e.id then aggUpdateRow v0 rest t else t)).map (fun t => t.id) =
          db.trends.map (fun t => t.id) := by
        rw [List.map_map]
        exact List.map_congr_left (fun t _ => hφid t)
      dsimp only
      rw [this]
      exact hnd
    · intro t2 ht2
      dsimp only at ht2 ⊢
      obtain ⟨t, ht, hφ⟩ := List.mem_map.mp ht2
      rw [← hφ, hφid]
      exact hbound t ht
    · intro t1 ht1 t2 ht2 hk hd hp
      dsimp only at ht1 ht2
      obtain ⟨u1, hu1, hφ1⟩ := List.mem_map.mp ht1
      obtain ⟨u2, hu2, hφ2⟩ := List.mem_map.mp ht2
      have hk1 := aggUpdateRow_key v0 rest u1
      have hk2 := aggUpdateRow_key v0 rest u2
      have hkeys1 : t1.keywordId = u1.keywordId ∧ t1.date = u1.date ∧
          t1.period = u1.period := by
        rw [← hφ1]
        by_cases h : u1.id = e.id
        · rw [if_pos h]
          exact aggUpdateRow_key v0 rest u1
        · rw [if_neg h]
          exact ⟨rfl, rfl, rfl⟩
      have hkeys2 : t2.keywordId = u2.keywordId ∧ t2.date = u2.date ∧
          t2.period = u2.period := by
        rw [← hφ2]
        by_cases h : u2.id = e.id
        · rw [if_pos h]
          exact aggUpdateRow_key v0 rest u2
        · rw [if_neg h]
          exact ⟨rfl, rfl, rfl⟩
      have hu12 : u1 = u2 := by
        apply hkey u1 hu1 u2 hu2
        · rw [← hkeys1.1, ← hkeys2.1, hk]
        · rw [← hkeys1.2.1, ← hkeys2.2.1, hd]
        · rw [← hkeys1.2.2, ← hkeys2.2.2, hp]
      rw [← hφ1, ← hφ2, hu12]
    · refine ⟨aggUpdateRow v0 rest e, ?_, ?_⟩
      · dsimp only
        refine List.mem_map.mpr ⟨e, he_mem, ?_⟩
        rw [if_pos rfl]
      · exact ⟨he_key.1, he_key.2.1, he_key.2.2, rfl, rfl, rfl, rfl⟩
    · intro r hr hrk
      dsimp only
      refine List.mem_map.mpr ⟨r, hr, hφkeep r hr hrk⟩
  | none =>
    rw [updateTrendsAgg_insert today db k v0 rest hf]
    have hnone := List.find?_eq_none.mp hf
    refine ⟨⟨?_, ?_, ?_⟩, ?_, ?_⟩
    · dsimp only
      rw [List.map_append]
      refine List.Nodup.append hnd (by simp) ?_
      intro a ha hb
      simp only [List.map_cons, List.map_nil, List.mem_singleton] at hb
      obtain ⟨t, ht, hta⟩ := List.mem_map.mp ha
      have := hbound t ht
      rw [hta] at this
      rw [hb] at this
      exact absurd this (by simp [aggInsertRow])
    · intro t2 ht2
      dsimp only at ht2 ⊢
      rcases List.mem_append.mp ht2 with h | h
      · exact Nat.lt_trans (hbound t2 h) (Nat.lt_succ_self _)
      · simp only [List.mem_singleton] at h
        rw [h]
        exact Nat.lt_succ_self _
    · intro t1 ht1 t2 ht2 hk hd hp
      dsimp only at ht1 ht2
      have hkeyOfNew : ∀ t ∈ db.trends,
          t.keywordId = k.id → t.date = today → t.period = "daily" → False := by
        intro t ht htk htd htp
        exact hnone t ht ((trendKeyB_iff k.id today t).mpr ⟨htk, htd, htp⟩)
      rcases List.mem_append.mp ht1 with h1 | h1 <;>
        rcases List.mem_append.mp ht2 with h2 | h2
      · exact hkey t1 h1 t2 h2 hk hd hp
      · simp only [List.mem_singleton] at h2
        exfalso
        apply hkeyOfNew t1 h1
        · rw [hk, h2]; rfl
        · rw [hd, h2]; rfl
        · rw [hp, h2]; rfl
      · simp only [List.mem_singleton] at h1
        exfalso
        apply hkeyOfNew t2 h2
        · rw [← hk, h1]; rfl
        · rw [← hd, h1]; rfl
        · rw [← hp, h1]; rfl
      · simp only [List.mem_singleton] at h1 h2
        rw [h1, h2]
    · refine ⟨aggInsertRow today k.id db.nextTrendId v0 rest, ?_, ?_⟩
      · dsimp only
        exact List.mem_append.mpr (Or.inr (by simp))
      · exact ⟨rfl, rfl, rfl, rfl, rfl, rfl, rfl⟩
    · intro r hr _
      dsimp only
      exact List.mem_append.mpr (Or.inl hr)


theorem updateTrendsKeyword_wf (today : Nat) (db : DB) (k : Keyword)
    (hwf : trendsWF db) : trendsWF (updateTrendsKeyword today db k) := by
  cases htv : todayVideos db.videos k.id today with
  | nil => rw [updateTrendsKeyword_nil today db k htv]; exact hwf
  | cons v0 rest =>
    rw [updateTrendsKeyword_cons today db k v0 rest htv]
    exact (updateTrendsAgg_spec today db k v0 rest hwf).1

theorem updateTrendsKeyword_preserve (today : Nat) (db : DB) (k : Keyword)
    (hwf : trendsWF db) :
    ∀ r ∈ db.trends, r.keywordId ≠ k.id →
      r ∈ (updateTrendsKeyword today db k).trends := by
  intro r hr hrk
  cases htv : todayVideos db.videos k.id today with
  | nil => rw [updateTrendsKeyword_nil today db k htv]; exact hr
  | cons v0 rest =>
    rw [updateTrendsKeyword_cons today db k v0 rest htv]
    exact (updateTrendsAgg_spec today db k v0 rest hwf).2.2 r hr hrk

theorem updateTrendsKeyword_frame (today : Nat) (db : DB) (k : Keyword) :
    (updateTrendsKeyword today db k).videos = db.videos ∧
    (updateTrendsKeyword today db k).keywords = db.keywords := by
  cases htv : todayVideos db.videos k.id today with
  | nil => rw [updateTrendsKeyword_nil today db k htv]; exact ⟨rfl, rfl⟩
  | cons v0 rest =>
    rw [updateTrendsKeyword_cons today db k v0 rest htv]
    cases hf : db.trends.find? (trendKeyB k.id today) with
    | some e =>
      rw [updateTrendsAgg_update today db k v0 rest e hf]
      exact ⟨rfl, rfl⟩
    | none =>
      rw [updateTrendsAgg_insert today db k v0 rest hf]
      exact ⟨rfl, rfl⟩

theorem updateTrends_fold_spec (today : Nat) :
    ∀ (ks : List Keyword) (db : DB), trendsWF db →
      trendsWF (ks.foldl (updateTrendsKeyword today) db) ∧
      (ks.foldl (updateTrendsKeyword today) db).videos = db.videos ∧
      (ks.foldl (updateTrendsKeyword today) db).keywords = db.keywords ∧
      (∀ r ∈ db.trends, (∀ k2 ∈ ks, r.keywordId ≠ k2.id) →
        r ∈ (ks.foldl (updateTrendsKeyword today) db).trends) := by
  intro ks
  induction ks with
  | nil =>
    intro db hwf
    exact ⟨hwf, rfl, rfl, fun r hr _ => hr⟩
  | cons k0 ks ih =>
    intro db hwf
    rw [List.foldl_cons]
    have hwf1 := updateTrendsKeyword_wf today db k0 hwf
    obtain ⟨ihwf, ihv, ihk, ihpres⟩ := ih (updateTrendsKeyword today db k0) hwf1
    have hframe := updateTrendsKeyword_frame today db k0
    refine ⟨ihwf, by rw [ihv, hframe.1], by rw [ihk, hframe.2], ?_⟩
    intro r hr hrk
    exact ihpres r
      (updateTrendsKeyword_preserve today db k0 hwf r hr (hrk k0 (by simp)))
      (fun k2 hk2 => hrk k2 (List.mem_cons_of_mem k0 hk2))

theorem updateTrends_fold_good (today : Nat) :
    ∀ (ks : List Keyword) (db : DB), trendsWF db →
      (ks.map (fun k => k.id)).Nodup →
      ∀ k ∈ ks, ∀ (v0 : VideoRow) (rest : List VideoRow),
        todayVideos db.videos k.id today = v0 :: rest →
        ∃ t ∈ (ks.foldl (updateTrendsKeyword today) db).trends,
          aggProps today k.id v0 rest t := by
  intro ks
  induction ks with
  | nil =>
    intro db _ _ k hk
    simp at hk
  | cons k0 ks ih =>
    intro db hwf hnd k hk v0 rest htv
    rw [List.foldl_cons]
    have hwf1 := updateTrendsKeyword_wf today db k0 hwf
    rcases List.mem_cons.mp hk with hk0 | hks
    · subst hk0
      have hstep : updateTrendsKeyword today db k = updateTrendsAgg today db k v0 rest :=
        updateTrendsKeyword_cons today db k v0 rest htv
      obtain ⟨t, ht_mem, ht_props⟩ := (updateTrendsAgg_spec today db k v0 rest hwf).2.1
      have ht_kid : t.keywordId = k.id := ht_props.1
      have hnotin : ∀ k2 ∈ ks, t.keywordId ≠ k2.id := by
        intro k2 hk2 hidq
        have : k.id ∈ ks.map (fun k3 => k3.id) :=
          List.mem_map.mpr ⟨k2, hk2, by rw [← hidq, ht_kid]⟩
        rw [List.map_cons] at hnd
        exact (List.nodup_cons.mp hnd).1 this
      obtain ⟨-, -, -, hpres⟩ := updateTrends_fold_spec today ks
        (updateTrendsKeyword today db k) hwf1
      refine ⟨t, hpres t (by rw [hstep]; exact ht_mem) hnotin, ht_props⟩
    · have hframe := updateTrendsKeyword_frame today db k0
      have htv1 : todayVideos (updateTrendsKeyword today db k0).videos k.id today =
          v0 :: rest := by rw [hframe.1, htv]
      rw [List.map_cons] at hnd
      exact ih (updateTrendsKeyword today db k0) hwf1 (List.nodup_cons.mp hnd).2
        k hks v0 rest htv1


theorem aggUpdateRow_self (today kid : Nat) (v0 : VideoRow) (rest : List VideoRow)
    (t : TrendRow) (h : aggProps today kid v0 rest t) :
    aggUpdateRow v0 rest t = t := by
  obtain ⟨-, -, -, h4, h5, h6, h7⟩ := h
  unfold aggUpdateRow
  cases t
  simp only at h4 h5 h6 h7
  simp [h4, h5, h6, h7]

theorem updateTrendsKeyword_id (today : Nat) (db : DB) (k : Keyword)
    (hwf : trendsWF db)
    (hcond : todayVideos db.videos k.id today = [] ∨
      ∃ v0 rest, todayVideos db.videos k.id today = v0 :: rest ∧
        ∃ t ∈ db.trends, aggProps today k.id v0 rest t) :
    updateTrendsKeyword today db k = db := by
  obtain ⟨hnd, hbound, hkey⟩ := hwf
  rcases hcond with htv | ⟨v0, rest, htv, t, ht_mem, ht_props⟩
  · exact updateTrendsKeyword_nil today db k htv
  · rw [updateTrendsKeyword_cons today db k v0 rest htv]
    have ht_key : trendKeyB k.id today t = true :=
      (trendKeyB_iff k.id today t).mpr
        ⟨ht_props.1, ht_props.2.1, ht_props.2.2.1⟩
    cases hf : db.trends.find? (trendKeyB k.id today) with
    | none =>
      exact absurd ht_key (by simpa using List.find?_eq_none.mp hf t ht_mem)
    | some e =>
      have he_mem := List.mem_of_find?_eq_some hf
      have he_key := (trendKeyB_iff k.id today e).mp (List.find?_some hf)
      have he_t : e = t := by
        apply hkey e he_mem t ht_mem
        · rw [he_key.1, ht_props.1]
        · rw [he_key.2.1, ht_props.2.1]
        · rw [he_key.2.2, ht_props.2.2.1]
      rw [updateTrendsAgg_update today db k v0 rest e hf]
      have hpt : ∀ r ∈ db.trends,
          (if r.id = e.id then aggUpdateRow v0 rest r else r) = (fun r => r) r := by
        intro r hr
        by_cases hid : r.id = e.id
        · rw [if_pos hid]
          have hre : r = e := List.inj_on_of_nodup_map hnd hr he_mem hid
          rw [hre, he_t]
          exact aggUpdateRow_self today k.id v0 rest t ht_props
        · rw [if_neg hid]
      have hmap : db.trends.map
          (fun r => if r.id = e.id then aggUpdateRow v0 rest r else r) = db.trends := by
        rw [List.map_congr_left hpt]
        exact List.map_id _
      rw [hmap]

theorem updateTrends_fold_id (today : Nat) :
    ∀ (ks : List Keyword) (db : DB), trendsWF db →
      (∀ k ∈ ks, todayVideos db.videos k.id today = [] ∨
        ∃ v0 rest, todayVideos db.videos k.id today = v0 :: rest ∧
          ∃ t ∈ db.trends, aggProps today k.id v0 rest t) →
      ks.foldl (updateTrendsKeyword today) db = db := by
  intro ks
  induction ks with
  | nil => intro db _ _; rfl
  | cons k0 ks ih =>
    intro db hwf hcond
    rw [List.foldl_cons, updateTrendsKeyword_id today db k0 hwf (hcond k0 (by simp))]
    exact ih db hwf (fun k hk => hcond k (List.mem_cons_of_mem k0 hk))

theorem updateTrends_def (today : Nat) (db : DB) :
    updateTrends today db = db.keywords.foldl (updateTrendsKeyword today) db := rfl

theorem updateTrends_idem (today : Nat) (db : DB) (hwf : trendsWF db)
    (hkids : (db.keywords.map (fun k => k.id)).Nodup) :
    updateTrends today (updateTrends today db) = updateTrends today db := by
  obtain ⟨hwfF, hvF, hkF, -⟩ := updateTrends_fold_spec today db.keywords db hwf
  rw [updateTrends_def today db]
  rw [updateTrends_def today (db.keywords.foldl (updateTrendsKeyword today) db)]
  rw [hkF]
  apply updateTrends_fold_id today db.keywords
    (db.keywords.foldl (updateTrendsKeyword today) db) hwfF
  intro k hk
  cases htv : todayVideos
      (db.keywords.foldl (updateTrendsKeyword today) db).videos k.id today with
  | nil => exact Or.inl rfl
  | cons v0 rest =>
    right
    refine ⟨v0, rest, rfl, ?_⟩
    have htv0 : todayVideos db.videos k.id today = v0 :: rest := by
      rw [← hvF]
      exact htv
    exact updateTrends_fold_good today db.keywords db hwf hkids k hk v0 rest htv0

/-- C6: daily trend aggregation is correct and idempotent.  Under the
schema-level integrity of the trends table (distinct ids below the
autoincrement counter, at most one row per composite key) and distinct
keyword ids, every keyword with current-day videos ends up, after
`updateTrends`, with exactly one `(keywordId, today, "daily")` row whose
videoCount is the record count, totalViews the sum of view counts, avgViews
the rounded-to-nearest quotient, and topVideoId the first-encountered record
of maximum view count; and running `updateTrends` again with no new data
changes nothing at all — the existing row is updated in place with the same
values and no duplicate row appears. -/
theorem updateTrends_daily_aggregate (today : Nat) (db : DB)
    (hwf : trendsWF db) (hkids : (db.keywords.map (fun k => k.id)).Nodup) :
    (∀ k ∈ db.keywords, ∀ (v0 : VideoRow) (rest : List VideoRow),
      todayVideos db.videos k.id today = v0 :: rest →
      ∃ t ∈ (updateTrends today db).trends,
        (t.keywordId = k.id ∧ t.date = today ∧ t.period = "daily") ∧
        t.videoCount = (v0 :: rest).length ∧
        t.totalViews = ((v0 :: rest).map viewsOf).sum ∧
        t.avgViews = jsRound t.totalViews t.videoCount ∧
        t.topVideoId = (topVideoOf v0 rest).id ∧
        (∃ pre post, v0 :: rest = pre ++ topVideoOf v0 rest :: post ∧
          (∀ v ∈ pre, viewsOf v < viewsOf (topVideoOf v0 rest)) ∧
          (∀ v ∈ post, viewsOf v ≤ viewsOf (topVideoOf v0 rest))) ∧
        (∀ t2 ∈ (updateTrends today db).trends,
          t2.keywordId = k.id → t2.date = today → t2.period = "daily" → t2 = t)) ∧
    updateTrends today (updateTrends today db) = updateTrends today db := by
  constructor
  · intro k hk v0 rest htv
    obtain ⟨t, htmem, hprops⟩ :=
      updateTrends_fold_good today db.keywords db hwf hkids k hk v0 rest htv
    obtain ⟨hwfF, -, -, -⟩ := updateTrends_fold_spec today db.keywords db hwf
    rw [updateTrends_def today db]
    obtain ⟨hp1, hp2, hp3, hp4, hp5, hp6, hp7⟩ := hprops
    refine ⟨t, htmem, ⟨hp1, hp2, hp3⟩, hp4, hp5, ?_, hp7, topVideoOf_first rest v0, ?_⟩
    · rw [hp6, hp5, hp4]
    · intro t2 ht2 h2k h2d h2p
      exact hwfF.2.2 t2 ht2 t htmem (by rw [h2k, hp1]) (by rw [h2d, hp2])
        (by rw [h2p, hp3])
  · exact updateTrends_idem today db hwf hkids


/-- Concrete rows for the C6 witness: one keyword, three current-day videos
with view counts 100, 300 and 50. -/
def exV0 : VideoRow :=
  { id := 0, videoId := "a", keywordId := 1, title := "t0", url := "u0",
    channelName := "c0", viewCount := some 100, likeCount := none,
    duration := none, thumbnail := none, publishedAt := none, collectedAt := 10 }

def exV1 : VideoRow :=
  { id := 1, videoId := "b", keywordId := 1, title := "t1", url := "u1",
    channelName := "c1", viewCount := some 300, likeCount := none,
    duration := none, thumbnail := none, publishedAt := none, collectedAt := 10 }

def exV2 : VideoRow :=
  { id := 2, videoId := "c", keywordId := 1, title := "t2", url := "u2",
    channelName := "c2", viewCount := some 50, likeCount := none,
    duration := none, thumbnail := none, publishedAt := none, collectedAt := 10 }

def exDb6 : DB :=
  { keywords := [{ id := 1, name := "k", isActive := true }],
    videos := [exV0, exV1, exV2], trends := [], collectionLogs := [],
    nextVideoId := 3, nextTrendId := 0 }

/-- Witness for C6 at view counts [100, 300, 50]: the aggregate is
videoCount 3, totalViews 450, avgViews 150, top video the 300-view record,
and the second aggregation run changes nothing. -/
theorem updateTrends_daily_aggregate_witness :
    trendsWF exDb6 ∧
    (exDb6.keywords.map (fun k => k.id)).Nodup ∧
    updateTrends 10 (updateTrends 10 exDb6) = updateTrends 10 exDb6 ∧
    (∃ t ∈ (updateTrends 10 exDb6).trends,
      t.keywordId = 1 ∧ t.date = 10 ∧ t.period = "daily" ∧
      t.videoCount = 3 ∧ t.totalViews = 450 ∧ t.avgViews = 150 ∧
      t.topVideoId = exV1.id) := by
  have hwf6 : trendsWF exDb6 := by
    unfold trendsWF
    exact ⟨by decide, by decide, by decide⟩
  have h := updateTrends_daily_aggregate 10 exDb6 hwf6 (by decide)
  refine ⟨hwf6, by decide, h.2, ?_⟩
  have htv : todayVideos exDb6.videos 1 10 = exV0 :: [exV1, exV2] := by decide
  obtain ⟨t, htmem, hkeys, hvc, htv2, hav, htop, -, -⟩ :=
    h.1 { id := 1, name := "k", isActive := true } (by decide) exV0 [exV1, exV2] htv
  refine ⟨t, htmem, hkeys.1, hkeys.2.1, hkeys.2.2, ?_, ?_, ?_, ?_⟩
  · rw [hvc]
    decide
  · rw [htv2]
    decide
  · rw [hav, htv2, hvc]
    decide
  · rw [htop]
    decide


end YTC
